import Mathlib

/-!
Verification model of the GTFS realtime normalization engine
(realtime parsing, entity merging, alert handling) and of the
structural hasher of the jamespfennell/gtfs repository.

Modelling conventions, fixed once for the whole file:

* Go strings are byte strings; they are modelled as `List Nat`
  (one entry per byte).  Go string comparison (used by `TripID.Less`)
  is bytewise lexicographic and is modelled by `goStrLt`; `len(s)`
  is the byte length, i.e. `List.length`.
* `time.Time` values are always produced by the parser from an epoch
  second count (or by `time.Date`), and are only ever observed through
  `Unix()`, `Equal`, `Before` and Go equality of values produced with
  the single configured timezone.  They are therefore modelled by the
  `Int` of their Unix epoch seconds.  The zero value `time.Time{}` has
  Unix time `goZeroTimeUnix = -62135596800`.
* `time.Duration` is an `int64` nanosecond count, modelled as `Int`.
* Protobuf scalars: `uint32`/`uint64` fields are modelled as `Nat`,
  `int32`/`int64` fields and enum values as `Int`.  `float32`/`float64`
  fields are only copied and hashed bit-for-bit by the code, never
  interpreted numerically, so they are modelled by their IEEE-754 bit
  patterns as `Nat`.
* Optional protobuf fields and Go pointers become `Option`.
* The `Extension` hook is instantiated with `NoExtension` (the default
  used by `ParseRealtime` when no extension is configured): its
  `UpdateTrip`/`UpdateVehicle`/`UpdateAlert` hooks do not mutate the
  entities, `UpdateTrip`/`UpdateAlert` report should-skip = false, and
  `GetTrack` returns nil.  The only effect an extension can have on the
  merge passes is the per-entity skip flag computed in pass 1, so the
  merge engine is modelled over a list of (shouldSkip, entity) pairs,
  and the top level `ParseRealtime` instantiates every flag to false.
* `time.Date(y, m, d, 0, 0, 0, 0, tz).Unix()` (standard library calendar
  arithmetic, external to the repository) is modelled by the abstract
  function `dateToUnix` carried in `ParseRealtimeOptions`.
-/

/-- Go byte strings: a list of byte values. -/
abbrev GoStr := List Nat

/-- Bytewise lexicographic order on Go strings (the `<` of Go on `string`). -/
def goStrLt : GoStr → GoStr → Bool
  | [], [] => false
  | [], _ :: _ => true
  | _ :: _, [] => false
  | a :: as, b :: bs => if a < b then true else if b < a then false else goStrLt as bs

/-- DirectionID is a mechanism for distinguishing between trips going in the
opposite direction.  In Go this is a `uint8` with values Unspecified = 0,
True = 1, False = 2. -/
inductive DirectionID where
  | Unspecified
  | IsTrue
  | IsFalse
deriving DecidableEq, Repr

/-- The numeric (uint8) value of a `DirectionID`, used for ordering and hashing. -/
def DirectionID.toNat : DirectionID → Nat
  | .Unspecified => 0
  | .IsTrue => 1
  | .IsFalse => 2

def DirectionID_Unspecified : DirectionID := .Unspecified

def DirectionID_True : DirectionID := .IsTrue

def DirectionID_False : DirectionID := .IsFalse

/-- Go function `parseDirectionID_GTFSRealtime(raw *uint32) DirectionID`. -/
def parseDirectionID_GTFSRealtime (raw : Option Nat) : DirectionID :=
  match raw with
  | none => DirectionID_Unspecified
  | some v => if v = 0 then DirectionID_False else DirectionID_True

/-- RouteType is an `int32` enum in Go. -/
abbrev RouteType := Int

def RouteType_Unknown : RouteType := 10000

/-- Go function `parseRouteType_GTFSRealtime(raw *int32) RouteType`: nil maps to
Unknown, otherwise the value is formatted as a decimal string and matched
against the known route types 0-7, 11, 12; anything else maps to Unknown. -/
def parseRouteType_GTFSRealtime (raw : Option Int) : RouteType :=
  match raw with
  | none => RouteType_Unknown
  | some n =>
    if n = 0 ∨ n = 1 ∨ n = 2 ∨ n = 3 ∨ n = 4 ∨ n = 5 ∨ n = 6 ∨ n = 7 ∨ n = 11 ∨ n = 12
    then n else RouteType_Unknown

/-- Go struct `TripID` (realtime.go).  `StartTime` is a `time.Duration`
(nanoseconds); `StartDate` is a `time.Time` modelled by its Unix seconds;
`ScheduleRelationship` is the protobuf enum value (an int32). -/
structure TripID where
  ID : GoStr
  RouteID : GoStr
  DirectionID : DirectionID
  HasStartTime : Bool
  StartTime : Int
  HasStartDate : Bool
  StartDate : Int
  ScheduleRelationship : Int
deriving DecidableEq, Repr

/-- Go method `TripID.Less`, the ordering on trip IDs used to sort the output
trips (defined for test consistency). -/
def TripID.Less (t1 t2 : TripID) : Bool :=
  if t1.ID ≠ t2.ID then goStrLt t1.ID t2.ID
  else if t1.RouteID ≠ t2.RouteID then goStrLt t1.RouteID t2.RouteID
  else if t1.DirectionID ≠ t2.DirectionID then decide (t1.DirectionID.toNat < t2.DirectionID.toNat)
  else if t1.HasStartTime ≠ t2.HasStartTime then !t1.HasStartTime && t2.HasStartTime
  else if t1.HasStartTime ∧ t1.StartTime ≠ t2.StartTime then decide (t1.StartTime < t2.StartTime)
  else if t1.HasStartDate ≠ t2.HasStartDate then !t1.HasStartDate && t2.HasStartDate
  else if t1.HasStartDate ∧ t1.StartDate ≠ t2.StartDate then decide (t1.StartDate < t2.StartDate)
  else decide (t1.ScheduleRelationship < t2.ScheduleRelationship)

/-- Go struct `StopTimeEvent`.  `Time` is modelled by Unix seconds, `Delay` by
its nanosecond count, `Uncertainty` is an int32. -/
structure StopTimeEvent where
  Time : Option Int
  Delay : Option Int
  Uncertainty : Option Int
deriving DecidableEq, Repr

/-- Go struct `StopTimeUpdate`.  `ScheduleRelationship` is the protobuf enum
value (int32, default 0 = SCHEDULED). -/
structure StopTimeUpdate where
  StopSequence : Option Nat
  StopID : Option GoStr
  Arrival : Option StopTimeEvent
  Departure : Option StopTimeEvent
  NyctTrack : Option GoStr
  ScheduleRelationship : Int
deriving DecidableEq, Repr

/-- Go struct `Trip` without its `Vehicle` back-pointer.  During the decode and
merge passes the `Vehicle` pointer of every `Trip` value stored in the
`tripsById` map is nil (cross-links are only resolved in the finalize pass),
so the merge-level model carries only the remaining fields; the final
cross-link is represented on the output type `TripOut` below. -/
structure Trip where
  ID : TripID
  StopTimeUpdates : List StopTimeUpdate
  IsEntityInMessage : Bool
deriving DecidableEq, Repr

/-- Go struct `VehicleID`. -/
structure VehicleID where
  ID : GoStr
  Label : GoStr
  LicensePlate : GoStr
deriving DecidableEq, Repr

/-- Go struct `Position`; float fields are modelled by their IEEE-754 bit
patterns (the code only copies and hashes them bit-for-bit). -/
structure Position where
  Latitude : Option Nat
  Longitude : Option Nat
  Bearing : Option Nat
  Odometer : Option Nat
  Speed : Option Nat
deriving DecidableEq, Repr

/-- Go struct `Vehicle` without its `Trip` back-pointer (see `Trip` above).
`CurrentStatus`, `CongestionLevel` and `OccupancyStatus` are protobuf enum
values (int32); `Timestamp` is modelled by Unix seconds. -/
structure Vehicle where
  ID : Option VehicleID
  Position : Option Position
  CurrentStopSequence : Option Nat
  StopID : Option GoStr
  CurrentStatus : Option Int
  Timestamp : Option Int
  CongestionLevel : Int
  OccupancyStatus : Option Int
  OccupancyPercentage : Option Nat
  IsEntityInMessage : Bool
deriving DecidableEq, Repr

/-- Go struct `AlertActivePeriod` (times as Unix seconds). -/
structure AlertActivePeriod where
  StartsAt : Option Int
  EndsAt : Option Int
deriving DecidableEq, Repr

/-- Go struct `AlertInformedEntity`. -/
structure AlertInformedEntity where
  AgencyID : Option GoStr
  RouteID : Option GoStr
  RouteType : RouteType
  DirectionID : DirectionID
  TripID : Option TripID
  StopID : Option GoStr
deriving DecidableEq, Repr

/-- Go struct `AlertText`. -/
structure AlertText where
  Text : GoStr
  Language : GoStr
deriving DecidableEq, Repr

/-- Go struct `Alert`.  `Cause` and `Effect` are protobuf enum values. -/
structure Alert where
  ID : GoStr
  Cause : Int
  Effect : Int
  ActivePeriods : List AlertActivePeriod
  InformedEntities : List AlertInformedEntity
  Header : List AlertText
  Description : List AlertText
  URL : List AlertText
deriving DecidableEq, Repr

/-! Raw GTFS realtime protobuf message model (the already-unmarshalled
`gtfsrt.FeedMessage` object graph, fields restricted to those the parser
reads).  Optional fields are `Option`; the `GetX()` accessors of the
generated code return the zero value, resp. the declared default, when the
field is absent. -/

/-- Protobuf `TripDescriptor`. -/
structure TripDescriptor where
  TripId : Option GoStr
  RouteId : Option GoStr
  DirectionId : Option Nat
  StartTime : Option GoStr
  StartDate : Option GoStr
  ScheduleRelationship : Option Int
deriving DecidableEq, Repr

/-- Protobuf `VehicleDescriptor`. -/
structure VehicleDescriptor where
  Id : Option GoStr
  Label : Option GoStr
  LicensePlate : Option GoStr
deriving DecidableEq, Repr

/-- Protobuf `TripUpdate_StopTimeEvent`: `Delay` int32 seconds, `Time` int64
epoch seconds, `Uncertainty` int32. -/
structure FeedStopTimeEvent where
  Delay : Option Int
  Time : Option Int
  Uncertainty : Option Int
deriving DecidableEq, Repr

/-- Protobuf `TripUpdate_StopTimeUpdate`. -/
structure FeedStopTimeUpdate where
  StopSequence : Option Nat
  StopId : Option GoStr
  Arrival : Option FeedStopTimeEvent
  Departure : Option FeedStopTimeEvent
  ScheduleRelationship : Option Int
deriving DecidableEq, Repr

/-- Protobuf `TripUpdate`. -/
structure TripUpdate where
  Trip : Option TripDescriptor
  Vehicle : Option VehicleDescriptor
  StopTimeUpdate : List FeedStopTimeUpdate
deriving DecidableEq, Repr

/-- Protobuf `Position` (raw); float fields as IEEE-754 bit patterns. -/
structure FeedPosition where
  Latitude : Option Nat
  Longitude : Option Nat
  Bearing : Option Nat
  Odometer : Option Nat
  Speed : Option Nat
deriving DecidableEq, Repr

/-- Protobuf `VehiclePosition`. -/
structure VehiclePosition where
  Trip : Option TripDescriptor
  Vehicle : Option VehicleDescriptor
  Position : Option FeedPosition
  CurrentStopSequence : Option Nat
  StopId : Option GoStr
  CurrentStatus : Option Int
  Timestamp : Option Nat
  CongestionLevel : Option Int
  OccupancyStatus : Option Int
  OccupancyPercentage : Option Nat
deriving DecidableEq, Repr

/-- Protobuf `TimeRange`. -/
structure TimeRange where
  Start : Option Nat
  End : Option Nat
deriving DecidableEq, Repr

/-- Protobuf `TranslatedString_Translation`. -/
structure Translation where
  Text : Option GoStr
  Language : Option GoStr
deriving DecidableEq, Repr

/-- Protobuf `TranslatedString`. -/
structure TranslatedString where
  Translation : List Translation
deriving DecidableEq, Repr

/-- Protobuf `EntitySelector` (an informed entity of an alert). -/
structure EntitySelector where
  AgencyId : Option GoStr
  RouteId : Option GoStr
  RouteType : Option Int
  DirectionId : Option Nat
  Trip : Option TripDescriptor
  StopId : Option GoStr
deriving DecidableEq, Repr

/-- Protobuf `Alert` (raw). -/
structure FeedAlert where
  ActivePeriod : List TimeRange
  InformedEntity : List EntitySelector
  Cause : Option Int
  Effect : Option Int
  HeaderText : Option TranslatedString
  DescriptionText : Option TranslatedString
  Url : Option TranslatedString
deriving DecidableEq, Repr

/-- Protobuf `FeedEntity`. -/
structure FeedEntity where
  Id : Option GoStr
  TripUpdate : Option TripUpdate
  Vehicle : Option VehiclePosition
  Alert : Option FeedAlert
deriving DecidableEq, Repr

/-- Protobuf `FeedHeader` (field restricted to the one the parser reads). -/
structure FeedHeader where
  Timestamp : Option Nat
deriving DecidableEq, Repr

/-- Protobuf `FeedMessage`. -/
structure FeedMessage where
  Header : Option FeedHeader
  Entity : List FeedEntity
deriving DecidableEq, Repr

/-- Go struct `ParseRealtimeOptions`.  The timezone and the standard library
calendar arithmetic `time.Date(y, m, d, 0, 0, 0, 0, tz).Unix()` (external to
the repository) are modelled together by the abstract function `dateToUnix`. -/
structure ParseRealtimeOptions where
  dateToUnix : Nat → Nat → Nat → Int

/-- Conversion of a `uint64` protobuf timestamp through Go `int64(x)`
(two's complement reinterpretation) as done by `convertOptionalTimestamp`
and the created-at handling; `time.Unix(v, 0)` then has Unix seconds `v`. -/
def int64OfUint64 (n : Nat) : Int :=
  if n < 2 ^ 63 then (n : Int) else (n : Int) - 2 ^ 64

/-- Unix seconds of the zero value `time.Time{}`. -/
def goZeroTimeUnix : Int := -62135596800

/-- ASCII digit test, byte range 48-57. -/
def isDigit (c : Nat) : Bool := 48 ≤ c && c ≤ 57

/-- Numeric value of an ASCII digit byte. -/
def digitVal (c : Nat) : Nat := c - 48

/-- The regular expression match for start times: exactly eight bytes
`HH:MM:SS` (the regexp `[0-9]{2}:[0-9]{2}:[0-9]{2}` anchored on both sides),
returning the three decimal groups. -/
def matchStartTimeRegex : GoStr → Option (Nat × Nat × Nat)
  | [h1, h2, c1, m1, m2, c2, s1, s2] =>
    if isDigit h1 && isDigit h2 && (c1 = 58 : Bool) && isDigit m1 && isDigit m2 &&
       (c2 = 58 : Bool) && isDigit s1 && isDigit s2 then
      some (digitVal h1 * 10 + digitVal h2,
            digitVal m1 * 10 + digitVal m2,
            digitVal s1 * 10 + digitVal s2)
    else none
  | _ => none

/-- The regular expression match for start dates: exactly eight digit bytes
`YYYYMMDD`, returning the year, month and day groups. -/
def matchStartDateRegex : GoStr → Option (Nat × Nat × Nat)
  | [y1, y2, y3, y4, m1, m2, d1, d2] =>
    if isDigit y1 && isDigit y2 && isDigit y3 && isDigit y4 && isDigit m1 && isDigit m2 &&
       isDigit d1 && isDigit d2 then
      some (((digitVal y1 * 10 + digitVal y2) * 10 + digitVal y3) * 10 + digitVal y4,
            digitVal m1 * 10 + digitVal m2,
            digitVal d1 * 10 + digitVal d2)
    else none
  | _ => none

/-- Go function `parseStartTime`: parses `HH:MM:SS` into a Duration
(nanoseconds); absent or non-matching input yields (false, 0). -/
def parseStartTime (startTime : Option GoStr) : Bool × Int :=
  match startTime with
  | none => (false, 0)
  | some s =>
    match matchStartTimeRegex s with
    | none => (false, 0)
    | some (h, m, sec) => (true, (((h * 60 + m) * 60 + sec : Nat) : Int) * 1000000000)

/-- Go function `parseStartDate`: parses `YYYYMMDD` through `time.Date` in the
configured timezone; absent or non-matching input yields the zero time. -/
def parseStartDate (startDate : Option GoStr) (opts : ParseRealtimeOptions) : Bool × Int :=
  match startDate with
  | none => (false, goZeroTimeUnix)
  | some s =>
    match matchStartDateRegex s with
    | none => (false, goZeroTimeUnix)
    | some (y, m, d) => (true, opts.dateToUnix y m d)

/-- Go function `parseTripDescriptor`. -/
def parseTripDescriptor (tripDesc : TripDescriptor) (opts : ParseRealtimeOptions) : TripID :=
  let st := parseStartTime tripDesc.StartTime
  let sd := parseStartDate tripDesc.StartDate opts
  { ID := tripDesc.TripId.getD []
    RouteID := tripDesc.RouteId.getD []
    DirectionID := parseDirectionID_GTFSRealtime tripDesc.DirectionId
    ScheduleRelationship := tripDesc.ScheduleRelationship.getD 0
    HasStartTime := st.1
    StartTime := st.2
    HasStartDate := sd.1
    StartDate := sd.2 }

/-- Go function `parseOptionalTripDescriptor`. -/
def parseOptionalTripDescriptor (tripDesc : Option TripDescriptor)
    (opts : ParseRealtimeOptions) : Option TripID :=
  tripDesc.map (parseTripDescriptor · opts)

/-- Go function `parseVehicleDescriptor`: a descriptor whose three fields are
all empty collapses to no vehicle ID at all. -/
def parseVehicleDescriptor (vehicleDesc : Option VehicleDescriptor) : Option VehicleID :=
  match vehicleDesc with
  | none => none
  | some d =>
    let vehicleID : VehicleID :=
      { ID := d.Id.getD [], Label := d.Label.getD [], LicensePlate := d.LicensePlate.getD [] }
    if vehicleID = { ID := [], Label := [], LicensePlate := [] } then none else some vehicleID

/-- The zero value `TripID{}` (Go), as produced by `&Trip{}`. -/
def zeroTripID : TripID :=
  { ID := [], RouteID := [], DirectionID := DirectionID_Unspecified,
    HasStartTime := false, StartTime := 0,
    HasStartDate := false, StartDate := goZeroTimeUnix,
    ScheduleRelationship := 0 }

/-- The zero value `Trip{}` (Go). -/
def zeroTrip : Trip :=
  { ID := zeroTripID, StopTimeUpdates := [], IsEntityInMessage := false }

/-- The zero value `Vehicle{}` (Go). -/
def zeroVehicle : Vehicle :=
  { ID := none, Position := none, CurrentStopSequence := none, StopID := none,
    CurrentStatus := none, Timestamp := none, CongestionLevel := 0,
    OccupancyStatus := none, OccupancyPercentage := none, IsEntityInMessage := false }

/-- The `convertStopTimeEvent` closure inside `parseTripUpdate`: copies the
uncertainty, converts `Time` to a time value (Unix seconds) and `Delay`
(int32 seconds) to a Duration (nanoseconds). -/
def convertStopTimeEvent (e : Option FeedStopTimeEvent) : Option StopTimeEvent :=
  e.map fun ev =>
    { Uncertainty := ev.Uncertainty, Time := ev.Time, Delay := ev.Delay.map (· * 1000000000) }

/-- Go function `parseTripUpdate`; returns none when the update has no trip
descriptor (the Go ok = false case).  `NyctTrack` is nil because the
extension in use is NoExtension, whose `GetTrack` returns nil. -/
def parseTripUpdate (tripUpdate : TripUpdate) (opts : ParseRealtimeOptions) :
    Option (Trip × Option Vehicle) :=
  match tripUpdate.Trip with
  | none => none
  | some td =>
    let trip : Trip :=
      { ID := parseTripDescriptor td opts
        StopTimeUpdates := tripUpdate.StopTimeUpdate.map fun stu =>
          { StopSequence := stu.StopSequence
            StopID := stu.StopId
            Arrival := convertStopTimeEvent stu.Arrival
            Departure := convertStopTimeEvent stu.Departure
            NyctTrack := none
            ScheduleRelationship := stu.ScheduleRelationship.getD 0 }
        IsEntityInMessage := true }
    match tripUpdate.Vehicle with
    | none => some (trip, none)
    | some vd =>
      some (trip, some { zeroVehicle with
        ID := parseVehicleDescriptor (some vd), IsEntityInMessage := false })

/-- Go function `convertVehiclePosition`. -/
def convertVehiclePosition (vehiclePosition : VehiclePosition) : Option Position :=
  match vehiclePosition.Position with
  | none => none
  | some p =>
    some { Latitude := p.Latitude, Longitude := p.Longitude, Bearing := p.Bearing,
           Odometer := p.Odometer, Speed := p.Speed }

/-- Go function `parseVehicle` (for a `VehiclePosition` entity). -/
def parseVehicle (vehiclePosition : VehiclePosition) (opts : ParseRealtimeOptions) :
    Option Trip × Vehicle :=
  let vehicle : Vehicle :=
    { ID := parseVehicleDescriptor vehiclePosition.Vehicle
      Position := convertVehiclePosition vehiclePosition
      CurrentStopSequence := vehiclePosition.CurrentStopSequence
      StopID := vehiclePosition.StopId
      CurrentStatus := vehiclePosition.CurrentStatus
      Timestamp := vehiclePosition.Timestamp.map int64OfUint64
      CongestionLevel := vehiclePosition.CongestionLevel.getD 0
      OccupancyStatus := vehiclePosition.OccupancyStatus
      OccupancyPercentage := vehiclePosition.OccupancyPercentage
      IsEntityInMessage := true }
  match vehiclePosition.Trip with
  | none => (none, vehicle)
  | some td =>
    (some { ID := parseTripDescriptor td opts, StopTimeUpdates := [],
            IsEntityInMessage := false }, vehicle)

/-- Go function `mergeTrip`: the identity is copied unconditionally, and the
rest of the stored entity is overwritten exactly when the incoming entity is
a real (in-message) one. -/
def mergeTrip (t : Trip) (new : Trip) : Trip :=
  let t := { t with ID := new.ID }
  if !new.IsEntityInMessage then t else new

/-- Go function `mergeVehicle` (same shape as `mergeTrip`). -/
def mergeVehicle (v : Vehicle) (new : Vehicle) : Vehicle :=
  let v := { v with ID := new.ID }
  if !new.IsEntityInMessage then v else new

/-- Go function `tripIDUniquelyIdentifiesTrip`. -/
def tripIDUniquelyIdentifiesTrip : Option TripID → Bool
  | none => false
  | some t =>
    decide (t.ID ≠ []) ||
      (decide (t.RouteID ≠ []) && decide (t.DirectionID ≠ DirectionID_Unspecified) &&
        t.HasStartTime && t.HasStartDate)

/-- Go function `alertInformedEntityInformsAtLeastOneEntity`. -/
def alertInformedEntityInformsAtLeastOneEntity (e : AlertInformedEntity) : Bool :=
  e.AgencyID.isSome || e.RouteID.isSome || decide (e.RouteType ≠ RouteType_Unknown) ||
    tripIDUniquelyIdentifiesTrip e.TripID || e.StopID.isSome

/-- Go function `buildAlertText`. -/
def buildAlertText (ts : Option TranslatedString) : List AlertText :=
  ((ts.map (·.Translation)).getD []).map fun s =>
    { Text := s.Text.getD [], Language := s.Language.getD [] }

/-- Association list lookup (Go map read). -/
def alLookup {κ β : Type} [DecidableEq κ] : List (κ × β) → κ → Option β
  | [], _ => none
  | (k0, v0) :: rest, k => if k0 = k then some v0 else alLookup rest k

/-- Association list write (Go map write): replace the value at an existing
key in place, else append the new binding. -/
def alUpdate {κ β : Type} [DecidableEq κ] : List (κ × β) → κ → β → List (κ × β)
  | [], k, v => [(k, v)]
  | (k0, v0) :: rest, k, v =>
    if k0 = k then (k, v) :: rest else (k0, v0) :: alUpdate rest k v

/-- Accumulator of the informed-entity loop inside `parseAlert`:
the output informed entities, the implied trips, the set of directly
informed routes (`informedRoutes`, a Go set of strings, modelled as the
list of route IDs in arrival order, possibly with repeats), and
`informedRoutesFromTripIDs`, a map from route ID to the set of directions
in which the route is informed through non-identifying trip descriptors
(the direction set `map[DirectionID]bool` is modelled as the pair
(contains DirectionID_False, contains DirectionID_True)). -/
structure AlertParseState where
  informedEntities : List AlertInformedEntity
  trips : List Trip
  informedRoutes : List GoStr
  informedRoutesFromTripIDs : List (GoStr × (Bool × Bool))
deriving DecidableEq, Repr

/-- Setting `informedRoutesFromTripIDs[routeID][d] = true` for a specified
direction d (the else branch of the direction accumulation). -/
def setDirFlag (p : Bool × Bool) (d : DirectionID) : Bool × Bool :=
  match d with
  | .IsFalse => (true, p.2)
  | .IsTrue => (p.1, true)
  | .Unspecified => p

/-- One iteration of the informed-entity loop of Go `parseAlert`. -/
def alertStep (opts : ParseRealtimeOptions) (st : AlertParseState)
    (entity : EntitySelector) : AlertParseState :=
  let tripIDOrNil := parseOptionalTripDescriptor entity.Trip opts
  let st :=
    match tripIDOrNil with
    | some tid =>
      if !tripIDUniquelyIdentifiesTrip (some tid) && decide (tid.RouteID ≠ []) then
        if tid.DirectionID = DirectionID_Unspecified then
          { st with informedRoutesFromTripIDs :=
              alUpdate st.informedRoutesFromTripIDs tid.RouteID (true, true) }
        else
          let p := (alLookup st.informedRoutesFromTripIDs tid.RouteID).getD (false, false)
          { st with informedRoutesFromTripIDs :=
              alUpdate st.informedRoutesFromTripIDs tid.RouteID (setDirFlag p tid.DirectionID) }
      else st
    | none => st
  let st :=
    match entity.RouteId with
    | some r => { st with informedRoutes := st.informedRoutes ++ [r] }
    | none => st
  let informedEntity : AlertInformedEntity :=
    { AgencyID := entity.AgencyId
      RouteID := entity.RouteId
      RouteType := parseRouteType_GTFSRealtime entity.RouteType
      DirectionID := parseDirectionID_GTFSRealtime entity.DirectionId
      TripID := tripIDOrNil
      StopID := entity.StopId }
  if !alertInformedEntityInformsAtLeastOneEntity informedEntity then st
  else if tripIDUniquelyIdentifiesTrip tripIDOrNil then
    { st with
      informedEntities := st.informedEntities ++ [informedEntity]
      trips := st.trips ++
        [{ ID := tripIDOrNil.getD zeroTripID, StopTimeUpdates := [], IsEntityInMessage := false }] }
  else
    { st with informedEntities := st.informedEntities ++ [{ informedEntity with TripID := none }] }

/-- The informed entity synthesized for a route that is informed only through
non-identifying trip descriptors: both directions collapse to an
unspecified direction ID (the Go zero value), else the single collected
direction is used. -/
def dirPairToSynth (routeID : GoStr) (p : Bool × Bool) : AlertInformedEntity :=
  if p.1 && p.2 then
    { AgencyID := none, RouteID := some routeID, RouteType := RouteType_Unknown,
      DirectionID := DirectionID_Unspecified, TripID := none, StopID := none }
  else
    { AgencyID := none, RouteID := some routeID, RouteType := RouteType_Unknown,
      DirectionID := if p.1 then DirectionID_False else DirectionID_True,
      TripID := none, StopID := none }

/-- The trailing loop of Go `parseAlert` over `informedRoutesFromTripIDs`:
routes already informed directly are skipped, every other collected route
gets one synthesized informed entity.  (In Go the iteration order over this
map is unspecified; the model iterates in first-insertion order.) -/
def synthesizedRouteEntities (st : AlertParseState) : List AlertInformedEntity :=
  (st.informedRoutesFromTripIDs.filter fun kv => !decide (kv.1 ∈ st.informedRoutes)).map
    fun kv => dirPairToSynth kv.1 kv.2

/-- The protobuf default for `Alert.Cause` (UNKNOWN_CAUSE) returned by
`GetCause()` when the field is absent. -/
def Alert_UNKNOWN_CAUSE : Int := 1

/-- The protobuf default for `Alert.Effect` (UNKNOWN_EFFECT) returned by
`GetEffect()` when the field is absent. -/
def Alert_UNKNOWN_EFFECT : Int := 8

/-- Go function `parseAlert`: returns the parsed alert and the implied trips
of its uniquely-identifying informed trip descriptors. -/
def parseAlert (ID : GoStr) (alert : FeedAlert) (opts : ParseRealtimeOptions) :
    Alert × List Trip :=
  let activePeriods := alert.ActivePeriod.map fun p =>
    { StartsAt := p.Start.map int64OfUint64, EndsAt := p.End.map int64OfUint64 }
  let st := alert.InformedEntity.foldl (alertStep opts) ⟨[], [], [], []⟩
  ({ ID := ID
     ActivePeriods := activePeriods
     Cause := alert.Cause.getD Alert_UNKNOWN_CAUSE
     Effect := alert.Effect.getD Alert_UNKNOWN_EFFECT
     InformedEntities := st.informedEntities ++ synthesizedRouteEntities st
     Header := buildAlertText alert.HeaderText
     Description := buildAlertText alert.DescriptionText
     URL := buildAlertText alert.Url },
   st.trips)

/-- State of the decode-and-merge pass (pass 2) of `ParseRealtime`:
the four identity maps, the list of vehicles lacking identity, and the
accumulated alerts. -/
structure RTState where
  tripsById : List (TripID × Trip)
  vehiclesByID : List (VehicleID × Vehicle)
  tripIDToVehicleID : List (TripID × VehicleID)
  vehicleIDToTripID : List (VehicleID × TripID)
  vehiclesWithNoID : List Vehicle
  alerts : List Alert
deriving DecidableEq, Repr

/-- The empty pass-2 state. -/
def RTState.empty : RTState := ⟨[], [], [], [], [], []⟩

/-- Merging one decoded trip into `tripsById` under its trip ID: Go creates a
zero `&Trip{}` entry if the key is absent and then calls `mergeTrip` on the
stored entry. -/
def updTripsById (m : List (TripID × Trip)) (new : Trip) : List (TripID × Trip) :=
  alUpdate m new.ID (mergeTrip ((alLookup m new.ID).getD zeroTrip) new)

/-- Merging one decoded vehicle (which has `ID = some vid`) into
`vehiclesByID`, as `updTripsById`. -/
def updVehiclesByID (m : List (VehicleID × Vehicle)) (vid : VehicleID) (new : Vehicle) :
    List (VehicleID × Vehicle) :=
  alUpdate m vid (mergeVehicle ((alLookup m vid).getD zeroVehicle) new)

/-- The body of the pass-2 loop after decoding: apply the decoded alert (with
its implied trips), trip and vehicle of one entity to the state, in the
order of the Go source.  When both a trip and a vehicle were decoded and
the vehicle has an identity, the pending cross-links are recorded in the
two link maps.  When the vehicle has no identity the Go code executes
`trip.Vehicle = vehicle`; that assignment mutates the local decoded trip
value, which was already copied into `tripsById` by `mergeTrip` and is
dropped at the end of the iteration, so it has no effect on any data
reachable from the returned result and the model applies no state change
in that branch. -/
def applyDecoded (st : RTState) (trip : Option Trip) (vehicle : Option Vehicle)
    (alert : Option (Alert × List Trip)) : RTState :=
  let st :=
    match alert with
    | some (a, alertTrips) =>
      { st with alerts := st.alerts ++ [a],
                tripsById := alertTrips.foldl updTripsById st.tripsById }
    | none => st
  let st :=
    match trip with
    | some t => { st with tripsById := updTripsById st.tripsById t }
    | none => st
  let st :=
    match vehicle with
    | some v =>
      match v.ID with
      | some vid => { st with vehiclesByID := updVehiclesByID st.vehiclesByID vid v }
      | none => { st with vehiclesWithNoID := st.vehiclesWithNoID ++ [v] }
    | none => st
  match trip, vehicle with
  | some t, some v =>
    match v.ID with
    | some vid =>
      { st with tripIDToVehicleID := alUpdate st.tripIDToVehicleID t.ID vid,
                vehicleIDToTripID := alUpdate st.vehicleIDToTripID vid t.ID }
    | none => st
  | _, _ => st

/-- One iteration of pass 2 for a (shouldSkip, entity) pair: skipped entities
are ignored; otherwise the entity is decoded by exactly one of the three
decoders, chosen in the order trip update, vehicle position, alert; a trip
update without a trip descriptor is dropped silently. -/
def stepEntity (opts : ParseRealtimeOptions) (st : RTState) (be : Bool × FeedEntity) : RTState :=
  if be.1 then st
  else
    match be.2.TripUpdate with
    | some tu =>
      match parseTripUpdate tu opts with
      | none => st
      | some (trip, vehicle) => applyDecoded st (some trip) vehicle none
    | none =>
      match be.2.Vehicle with
      | some vp =>
        let tv := parseVehicle vp opts
        applyDecoded st tv.1 (some tv.2) none
      | none =>
        match be.2.Alert with
        | some al => applyDecoded st none none (some (parseAlert (be.2.Id.getD []) al opts))
        | none => st

/-- Pass 2 over the whole entity list. -/
def runEntities (opts : ParseRealtimeOptions) (l : List (Bool × FeedEntity)) : RTState :=
  l.foldl (stepEntity opts) RTState.empty

/-- An emitted Trip of the result graph.  The Go field `Vehicle *Vehicle`
points at the entry of `vehiclesByID` selected by `tripIDToVehicleID`
(vehicles are uniquely keyed there, so the pointer is modelled by the
vehicle key), or is nil. -/
structure TripOut where
  toTrip : Trip
  Vehicle : Option VehicleID
deriving DecidableEq, Repr

/-- An emitted Vehicle of the result graph; the Go field `Trip *Trip` points
at the entry of `tripsById` selected by `vehicleIDToTripID` and is
modelled by the trip key, or is nil. -/
structure VehicleOut where
  toVehicle : Vehicle
  Trip : Option TripID
deriving DecidableEq, Repr

/-- Go struct `Realtime` (the result graph).  `CreatedAt` is the header
timestamp, absent when the header carries none (Go keeps the zero time
there). -/
structure Realtime where
  CreatedAt : Option Int
  Trips : List TripOut
  Vehicles : List VehicleOut
  Alerts : List Alert
deriving DecidableEq, Repr

/-- Insert one emitted trip into a list sorted by `TripID.Less`. -/
def sortTripsInsert (t : TripOut) : List TripOut → List TripOut
  | [] => [t]
  | u :: rest =>
    if TripID.Less u.toTrip.ID t.toTrip.ID then u :: sortTripsInsert t rest
    else t :: u :: rest

/-- The sort of the emitted trips by `TripID.Less` (Go uses `sort.Slice`; any
sort yields the same sequence because distinct map keys never compare
equal under the total order, see the ordering theorems below). -/
def sortTrips (l : List TripOut) : List TripOut := l.foldr sortTripsInsert []

/-- The pointer written by pass 3 into `Trip.Vehicle`: the vehicle selected by
`tripIDToVehicleID`, if the pending link exists (a link to a key absent
from `vehiclesByID` would be a nil pointer in Go; the link maps only ever
hold keys present in the entity maps, as proved below). -/
def tripVehicleLink (st : RTState) (k : TripID) : Option VehicleID :=
  match alLookup st.tripIDToVehicleID k with
  | some vid => if (alLookup st.vehiclesByID vid).isSome then some vid else none
  | none => none

/-- The pointer written by pass 3 into `Vehicle.Trip`, symmetrically. -/
def vehicleTripLink (st : RTState) (vid : VehicleID) : Option TripID :=
  match alLookup st.vehicleIDToTripID vid with
  | some k => if (alLookup st.tripsById k).isSome then some k else none
  | none => none

/-- Pass 3 of `ParseRealtime`: resolve the pending cross-links, emit the trips
sorted by `TripID.Less`, then the identified vehicles followed by the
vehicles without identity. -/
def finalize (createdAt : Option Int) (st : RTState) : Realtime :=
  { CreatedAt := createdAt
    Trips := sortTrips (st.tripsById.map fun kv => ⟨kv.2, tripVehicleLink st kv.1⟩)
    Vehicles :=
      (st.vehiclesByID.map fun kv => ⟨kv.2, vehicleTripLink st kv.1⟩) ++
        st.vehiclesWithNoID.map (⟨·, none⟩)
    Alerts := st.alerts }

/-- Passes 2 and 3 over a list of (shouldSkip, entity) pairs, the skip flags
being the outcome of pass 1. -/
def processEntities (opts : ParseRealtimeOptions) (createdAt : Option Int)
    (l : List (Bool × FeedEntity)) : Realtime :=
  finalize createdAt (runEntities opts l)

/-- Go function `ParseRealtime` with the default NoExtension extension: the
input is the protobuf unmarshalling outcome (`none` = the envelope failed
to decode, which Go turns into an error return with no partial result);
pass 1 computes no skips under NoExtension. -/
def ParseRealtime (content : Option FeedMessage) (opts : ParseRealtimeOptions) :
    Option Realtime :=
  match content with
  | none => none
  | some msg =>
    some (processEntities opts ((msg.Header.bind (·.Timestamp)).map int64OfUint64)
      (msg.Entity.map ((false, ·))))

/-! Structural hasher model (hash.go).  The hasher is invoked by the caller on
arbitrary `Trip` and `Vehicle` values of the result graph, whose mutual
`Trip.Vehicle` and `Vehicle.Trip` pointers it never follows more than one
level deep: `hasher.trip` reads no pointer at all, and `hasher.vehicle`
reads the fields of the linked trip that `hasher.trip` reads, which again
exclude that trip's own `Vehicle` pointer.  Every hash execution therefore
only observes a finite unfolding of the pointer graph, and the hash input
types are modelled as the trees `HTrip`/`HVehicle` carrying the full Go
field set, including the mutual pointers and `IsEntityInMessage`.

The hasher writes a flat byte stream into the supplied hash function; the
model computes that byte stream as a `List Nat` of byte values.
`binary.Write` with little-endian byte order turns a bool into one byte
(0 or 1), a `uint8` into one byte, an `int32` enum into four bytes, a
`uint32` into four bytes, an `int64` (including `time.Duration`) into
eight two's-complement bytes, a `uint64` into eight bytes, and a float
into its IEEE-754 bit pattern (4 or 8 bytes), all little-endian. -/

mutual
/-- Hash-level model of the full Go struct `Trip`, mutual pointers included. -/
inductive HTrip where
  | mk : TripID → List StopTimeUpdate → Option HVehicle → Bool → HTrip

/-- Hash-level model of the full Go struct `Vehicle`, field order as in Go:
ID, Trip, Position, CurrentStopSequence, StopID, CurrentStatus, Timestamp,
CongestionLevel, OccupancyStatus, OccupancyPercentage, IsEntityInMessage. -/
inductive HVehicle where
  | mk : Option VehicleID → Option HTrip → Option Position → Option Nat → Option GoStr →
      Option Int → Option Int → Int → Option Int → Option Nat → Bool → HVehicle
end

def HTrip.ID : HTrip → TripID
  | .mk i _ _ _ => i

def HTrip.StopTimeUpdates : HTrip → List StopTimeUpdate
  | .mk _ s _ _ => s

def HTrip.Vehicle : HTrip → Option HVehicle
  | .mk _ _ v _ => v

def HTrip.IsEntityInMessage : HTrip → Bool
  | .mk _ _ _ b => b

def HVehicle.ID : HVehicle → Option VehicleID
  | .mk i _ _ _ _ _ _ _ _ _ _ => i

def HVehicle.Trip : HVehicle → Option HTrip
  | .mk _ t _ _ _ _ _ _ _ _ _ => t

def HVehicle.Position : HVehicle → Option Position
  | .mk _ _ p _ _ _ _ _ _ _ _ => p

def HVehicle.CurrentStopSequence : HVehicle → Option Nat
  | .mk _ _ _ c _ _ _ _ _ _ _ => c

def HVehicle.StopID : HVehicle → Option GoStr
  | .mk _ _ _ _ s _ _ _ _ _ _ => s

def HVehicle.CurrentStatus : HVehicle → Option Int
  | .mk _ _ _ _ _ c _ _ _ _ _ => c

def HVehicle.Timestamp : HVehicle → Option Int
  | .mk _ _ _ _ _ _ t _ _ _ _ => t

def HVehicle.CongestionLevel : HVehicle → Int
  | .mk _ _ _ _ _ _ _ c _ _ _ => c

def HVehicle.OccupancyStatus : HVehicle → Option Int
  | .mk _ _ _ _ _ _ _ _ o _ _ => o

def HVehicle.OccupancyPercentage : HVehicle → Option Nat
  | .mk _ _ _ _ _ _ _ _ _ o _ => o

def HVehicle.IsEntityInMessage : HVehicle → Bool
  | .mk _ _ _ _ _ _ _ _ _ _ b => b

/-- Little-endian base-256 encoding of a natural number into `k` bytes. -/
def natLE (k : Nat) (n : Nat) : List Nat :=
  match k with
  | 0 => []
  | k + 1 => n % 256 :: natLE k (n / 256)

/-- Two's-complement little-endian encoding of an integer into `k` bytes
(what `binary.Write` emits for the fixed-width signed integer types). -/
def intLE (k : Nat) (i : Int) : List Nat :=
  natLE k (i % (256 ^ k : Nat)).toNat

/-- One byte for a Go bool under `binary.Write`. -/
def boolByte (b : Bool) : List Nat := [if b then 1 else 0]

/-- Bytes of `hasher.string`: an 8-byte little-endian length followed by the
raw bytes of the string. -/
def encString (s : GoStr) : List Nat := natLE 8 s.length ++ s

/-- Bytes of `hashNumberPtr` and of `hasher.stringPtr`/`hasher.timePtr`: one
presence byte (1 when the pointer is nil) followed by the encoded value
when present. -/
def encOpt {α : Type} (f : α → List Nat) (o : Option α) : List Nat :=
  boolByte o.isNone ++ (match o with | some a => f a | none => [])

/-- Bytes written for the body of a present arrival or departure event inside
`hasher.trip`: the optional epoch-second time, the optional delay as an
int64 nanosecond count, and the optional int32 uncertainty. -/
def encEventBody (ev : StopTimeEvent) : List Nat :=
  encOpt (intLE 8) ev.Time ++ encOpt (intLE 8) ev.Delay ++ encOpt (intLE 4) ev.Uncertainty

/-- Bytes written for one arrival or departure inside `hasher.trip`: a
presence byte, then the body when present. -/
def encEvent (e : Option StopTimeEvent) : List Nat :=
  encOpt encEventBody e

/-- Bytes written by `hasher.trip` for one stop time update. -/
def encSTU (stu : StopTimeUpdate) : List Nat :=
  encOpt (natLE 4) stu.StopSequence ++ encOpt encString stu.StopID ++
    encOpt encString stu.NyctTrack ++ intLE 4 stu.ScheduleRelationship ++
    encEvent stu.Arrival ++ encEvent stu.Departure

/-- Bytes written by `hasher.trip` (hence by `Trip.Hash`): the trip ID fields
(strings length-prefixed, direction as one uint8 byte, flags as bool
bytes, start date as the int64 Unix seconds, start time as the int64
duration), the int64 number of stop time updates, the int32 schedule
relationship, then the stop time update blocks in order.  The fields
`Vehicle` and `IsEntityInMessage` are not read. -/
def encodeTrip (t : HTrip) : List Nat :=
  encString t.ID.ID ++ encString t.ID.RouteID ++ [t.ID.DirectionID.toNat] ++
    boolByte t.ID.HasStartDate ++ intLE 8 t.ID.StartDate ++
    boolByte t.ID.HasStartTime ++ intLE 8 t.ID.StartTime ++
    intLE 8 (t.StopTimeUpdates.length : Int) ++ intLE 4 t.ID.ScheduleRelationship ++
    t.StopTimeUpdates.flatMap encSTU

/-- Bytes written for the three fields of a present vehicle ID inside
`hasher.vehicle`. -/
def encVehicleID (vid : VehicleID) : List Nat :=
  encString vid.ID ++ encString vid.Label ++ encString vid.LicensePlate

/-- Bytes written for a present `Position` inside `hasher.vehicle`: the five
optional float fields, each presence-prefixed, as their IEEE-754 bit
patterns (float32 = 4 bytes, float64 = 8 bytes, little-endian). -/
def encPosition (p : Position) : List Nat :=
  encOpt (natLE 4) p.Latitude ++ encOpt (natLE 4) p.Longitude ++
    encOpt (natLE 4) p.Bearing ++ encOpt (natLE 8) p.Odometer ++ encOpt (natLE 4) p.Speed

/-- Bytes written by `hasher.vehicle` (hence by `Vehicle.Hash`): presence byte
and fields of the vehicle ID, presence byte and full `hasher.trip` bytes of
the linked trip, presence byte and position fields, then the remaining
scalar fields.  `IsEntityInMessage` is not read, and the linked trip is
traversed by `hasher.trip`, which does not read that trip's own `Vehicle`
pointer. -/
def encodeVehicle (v : HVehicle) : List Nat :=
  encOpt encVehicleID v.ID ++
    encOpt encodeTrip v.Trip ++
    encOpt encPosition v.Position ++
    encOpt (natLE 4) v.CurrentStopSequence ++ encOpt encString v.StopID ++
    encOpt (intLE 4) v.CurrentStatus ++ encOpt (intLE 8) v.Timestamp ++
    intLE 4 v.CongestionLevel ++ encOpt (intLE 4) v.OccupancyStatus ++
    encOpt (natLE 4) v.OccupancyPercentage

/-- The fields of a `Trip` that `hasher.trip` reads: the full `TripID` and the
stop time updates; `Vehicle` and `IsEntityInMessage` are excluded. -/
def tripHashFields (t : HTrip) : TripID × List StopTimeUpdate :=
  (t.ID, t.StopTimeUpdates)

/-- The fields of a `Vehicle` that `hasher.vehicle` reads: everything except
`IsEntityInMessage`, with the linked trip included one level deep through
its own hashed fields only. -/
def vehicleHashFields (v : HVehicle) :
    Option VehicleID × Option (TripID × List StopTimeUpdate) × Option Position ×
      Option Nat × Option GoStr × Option Int × Option Int × Int × Option Int × Option Nat :=
  (v.ID, v.Trip.map tripHashFields, v.Position, v.CurrentStopSequence, v.StopID,
    v.CurrentStatus, v.Timestamp, v.CongestionLevel, v.OccupancyStatus, v.OccupancyPercentage)

/-! Value ranges of the Go types feeding the hasher.  The model uses
unbounded `Int`/`Nat`, so the statements about hashing quantify over
values within the ranges of the Go types they model. -/

def I64Range (i : Int) : Prop := -(2 ^ 63) ≤ i ∧ i < 2 ^ 63

def I32Range (i : Int) : Prop := -(2 ^ 31) ≤ i ∧ i < 2 ^ 31

def U32Range (n : Nat) : Prop := n < 2 ^ 32

def U64Range (n : Nat) : Prop := n < 2 ^ 64

def StrRange (s : GoStr) : Prop := s.length < 2 ^ 64

instance (i : Int) : Decidable (I64Range i) := by unfold I64Range; infer_instance

instance (i : Int) : Decidable (I32Range i) := by unfold I32Range; infer_instance

instance (n : Nat) : Decidable (U32Range n) := by unfold U32Range; infer_instance

instance (n : Nat) : Decidable (U64Range n) := by unfold U64Range; infer_instance

instance (s : GoStr) : Decidable (StrRange s) := by unfold StrRange; infer_instance

def EventHashable (e : StopTimeEvent) : Prop :=
  (∀ x ∈ e.Time, I64Range x) ∧ (∀ x ∈ e.Delay, I64Range x) ∧ (∀ x ∈ e.Uncertainty, I32Range x)

def STUHashable (stu : StopTimeUpdate) : Prop :=
  (∀ x ∈ stu.StopSequence, U32Range x) ∧ (∀ s ∈ stu.StopID, StrRange s) ∧
    (∀ s ∈ stu.NyctTrack, StrRange s) ∧ I32Range stu.ScheduleRelationship ∧
    (∀ e ∈ stu.Arrival, EventHashable e) ∧ (∀ e ∈ stu.Departure, EventHashable e)

def TripIDHashable (i : TripID) : Prop :=
  StrRange i.ID ∧ StrRange i.RouteID ∧ I64Range i.StartDate ∧ I64Range i.StartTime ∧
    I32Range i.ScheduleRelationship

def TripHashable (t : HTrip) : Prop :=
  TripIDHashable t.ID ∧ (t.StopTimeUpdates.length : Int) < 2 ^ 63 ∧
    ∀ stu ∈ t.StopTimeUpdates, STUHashable stu

def VehicleIDHashable (vid : VehicleID) : Prop :=
  StrRange vid.ID ∧ StrRange vid.Label ∧ StrRange vid.LicensePlate

def PositionHashable (p : Position) : Prop :=
  (∀ x ∈ p.Latitude, U32Range x) ∧ (∀ x ∈ p.Longitude, U32Range x) ∧
    (∀ x ∈ p.Bearing, U32Range x) ∧ (∀ x ∈ p.Odometer, U64Range x) ∧
    (∀ x ∈ p.Speed, U32Range x)

def VehicleHashable (v : HVehicle) : Prop :=
  (∀ vid ∈ v.ID, VehicleIDHashable vid) ∧ (∀ t ∈ v.Trip, TripHashable t) ∧
    (∀ p ∈ v.Position, PositionHashable p) ∧ (∀ n ∈ v.CurrentStopSequence, U32Range n) ∧
    (∀ s ∈ v.StopID, StrRange s) ∧ (∀ c ∈ v.CurrentStatus, I32Range c) ∧
    (∀ t ∈ v.Timestamp, I64Range t) ∧ I32Range v.CongestionLevel ∧
    (∀ o ∈ v.OccupancyStatus, I32Range o) ∧ (∀ o ∈ v.OccupancyPercentage, U32Range o)

instance (e : StopTimeEvent) : Decidable (EventHashable e) := by
  unfold EventHashable; infer_instance

instance (stu : StopTimeUpdate) : Decidable (STUHashable stu) := by
  unfold STUHashable; infer_instance

instance (i : TripID) : Decidable (TripIDHashable i) := by
  unfold TripIDHashable; infer_instance

instance (t : HTrip) : Decidable (TripHashable t) := by
  unfold TripHashable; infer_instance

instance (vid : VehicleID) : Decidable (VehicleIDHashable vid) := by
  unfold VehicleIDHashable; infer_instance

instance (p : Position) : Decidable (PositionHashable p) := by
  unfold PositionHashable; infer_instance

instance (v : HVehicle) : Decidable (VehicleHashable v) := by
  unfold VehicleHashable; infer_instance

/-! Association list lemmas (the Go maps of the merge engine). -/

/-- The keys of an association list. -/
def alKeys {κ β : Type} (m : List (κ × β)) : List κ := m.map Prod.fst

section AList

variable {κ β : Type} [DecidableEq κ]

theorem alLookup_update_same (m : List (κ × β)) (k : κ) (v : β) :
    alLookup (alUpdate m k v) k = some v := by
  induction m with
  | nil => simp [alUpdate, alLookup]
  | cons kv rest ih =>
    obtain ⟨a, b⟩ := kv
    by_cases h : a = k
    · simp [alUpdate, alLookup, h]
    · simpa [alUpdate, alLookup, h] using ih

theorem alLookup_update_ne (m : List (κ × β)) (k q : κ) (v : β) (h : q ≠ k) :
    alLookup (alUpdate m k v) q = alLookup m q := by
  have h2 : k ≠ q := Ne.symm h
  induction m with
  | nil => simp [alUpdate, alLookup, h2]
  | cons kv rest ih =>
    obtain ⟨a, b⟩ := kv
    by_cases hk : a = k
    · subst hk
      simp [alUpdate, alLookup, h2]
    · by_cases hq : a = q
      · subst hq
        simp [alUpdate, alLookup, h, hk]
      · simpa [alUpdate, alLookup, hk, hq] using ih

theorem alLookup_eq_none_iff (m : List (κ × β)) (k : κ) :
    alLookup m k = none ↔ k ∉ alKeys m := by
  induction m with
  | nil => simp [alLookup, alKeys]
  | cons kv rest ih =>
    obtain ⟨a, b⟩ := kv
    by_cases h : a = k
    · simp [alLookup, alKeys, h]
    · simp [alLookup, alKeys, h, ih, Ne.symm h]

theorem alLookup_isSome_iff (m : List (κ × β)) (k : κ) :
    (alLookup m k).isSome ↔ k ∈ alKeys m := by
  rcases h : alLookup m k with _ | v
  · simpa [Option.isSome] using (alLookup_eq_none_iff m k).mp h
  · have : ¬ alLookup m k = none := by simp [h]
    rw [alLookup_eq_none_iff] at this
    simpa [Option.isSome] using this

theorem alKeys_update (m : List (κ × β)) (k : κ) (v : β) :
    alKeys (alUpdate m k v) = if k ∈ alKeys m then alKeys m else alKeys m ++ [k] := by
  induction m with
  | nil => simp [alUpdate, alKeys]
  | cons kv rest ih =>
    obtain ⟨a, b⟩ := kv
    by_cases h : a = k
    · simp [alUpdate, alKeys, h]
    · have hka : k ≠ a := fun he => h he.symm
      simp only [alKeys] at ih
      simp only [alUpdate, if_neg h, alKeys, List.map_cons]
      rw [ih]
      by_cases hm : k ∈ List.map Prod.fst rest
      · simp [hm, hka]
      · simp [hm, hka]

theorem alKeys_update_nodup (m : List (κ × β)) (k : κ) (v : β)
    (h : (alKeys m).Nodup) : (alKeys (alUpdate m k v)).Nodup := by
  rw [alKeys_update]
  by_cases hm : k ∈ alKeys m
  · simpa [hm] using h
  · rw [if_neg hm]
    have dj : List.Disjoint (alKeys m) [k] := by
      intro x hx hk2
      simp only [List.mem_singleton] at hk2
      subst hk2
      exact hm hx
    exact h.append (List.nodup_singleton k) dj

theorem alLookup_mem (m : List (κ × β)) (k : κ) (v : β) (h : alLookup m k = some v) :
    (k, v) ∈ m := by
  induction m with
  | nil => simp [alLookup] at h
  | cons kv rest ih =>
    obtain ⟨a, b⟩ := kv
    by_cases hk : a = k
    · subst hk
      simp only [alLookup, if_pos rfl] at h
      simp [← Option.some_inj.mp h]
    · simp only [alLookup, if_neg hk] at h
      exact List.mem_cons_of_mem _ (ih h)

theorem mem_alLookup (m : List (κ × β)) (k : κ) (v : β) (hnd : (alKeys m).Nodup)
    (h : (k, v) ∈ m) : alLookup m k = some v := by
  induction m with
  | nil => simp at h
  | cons kv rest ih =>
    obtain ⟨a, b⟩ := kv
    have hnd' : (a :: alKeys rest).Nodup := hnd
    have hnd2 : (alKeys rest).Nodup ∧ a ∉ alKeys rest := by
      have h0 := List.nodup_cons.mp hnd'
      exact ⟨h0.2, h0.1⟩
    rcases List.mem_cons.mp h with h1 | h1
    · simp only [Prod.mk.injEq] at h1
      obtain ⟨rfl, rfl⟩ := h1
      simp [alLookup]
    · have hk : a ≠ k := by
        intro he
        subst he
        exact hnd2.2 (by simpa [alKeys] using List.mem_map_of_mem Prod.fst h1)
      simp only [alLookup, if_neg hk]
      exact ih hnd2.1 h1

end AList

/-- The parsed direction is specified exactly when the raw field is present. -/
theorem parseDirectionID_ne_unspecified (o : Option Nat) :
    (decide (parseDirectionID_GTFSRealtime o ≠ DirectionID_Unspecified)) = o.isSome := by
  rcases o with _ | v
  · simp [parseDirectionID_GTFSRealtime]
  · by_cases h : v = 0
    · subst h
      simp [parseDirectionID_GTFSRealtime, DirectionID_False, DirectionID_Unspecified]
    · simp [parseDirectionID_GTFSRealtime, h, DirectionID_True, DirectionID_Unspecified]

/-- C10: in realtime decoding a raw direction_id of 0 maps to DirectionID_False,
every non-zero value (including values greater than 1) maps to
DirectionID_True, and an absent value maps to DirectionID_Unspecified, with
no error path (the decoder is a total function); this mapping is the
DirectionID component of the TripID identity produced by
`parseTripDescriptor`, and through it the uniquely-identifies-a-trip
discriminator reduces, on parsed descriptors, to the presence of the raw
direction field (together with the other raw conditions). -/
theorem C10_direction_id_parsing :
    (parseDirectionID_GTFSRealtime none = DirectionID_Unspecified) ∧
    (parseDirectionID_GTFSRealtime (some 0) = DirectionID_False) ∧
    (∀ v : Nat, 0 < v → parseDirectionID_GTFSRealtime (some v) = DirectionID_True) ∧
    (∀ td opts, (parseTripDescriptor td opts).DirectionID =
      parseDirectionID_GTFSRealtime td.DirectionId) ∧
    (∀ td opts, tripIDUniquelyIdentifiesTrip (some (parseTripDescriptor td opts)) =
      (decide ((parseTripDescriptor td opts).ID ≠ []) ||
        (decide ((parseTripDescriptor td opts).RouteID ≠ []) && td.DirectionId.isSome &&
          (parseTripDescriptor td opts).HasStartTime &&
          (parseTripDescriptor td opts).HasStartDate))) := by
  refine ⟨rfl, rfl, ?_, ?_, ?_⟩
  · intro v hv
    simp [parseDirectionID_GTFSRealtime, Nat.pos_iff_ne_zero.mp hv]
  · intro td opts
    rfl
  · intro td opts
    have hdir : (parseTripDescriptor td opts).DirectionID =
        parseDirectionID_GTFSRealtime td.DirectionId := rfl
    simp only [tripIDUniquelyIdentifiesTrip, hdir,
      parseDirectionID_ne_unspecified td.DirectionId]

/-- Witness for C10 at concrete inputs: the direction value 7 (greater than 1)
parses to DirectionID_True. -/
theorem C10_direction_id_parsing_witness :
    parseDirectionID_GTFSRealtime (some 7) = DirectionID_True :=
  C10_direction_id_parsing.2.2.1 7 (by decide)

theorem runEntities_append (opts : ParseRealtimeOptions) (l1 l2 : List (Bool × FeedEntity)) :
    runEntities opts (l1 ++ l2) = l2.foldl (stepEntity opts) (runEntities opts l1) := by
  simp [runEntities, List.foldl_append]

/-- A trip update entity without a trip descriptor leaves the pass-2 state
untouched. -/
theorem stepEntity_dropped (opts : ParseRealtimeOptions) (st : RTState) (b : Bool)
    (e : FeedEntity) (tu : TripUpdate) (he : e.TripUpdate = some tu) (ht : tu.Trip = none) :
    stepEntity opts st (b, e) = st := by
  rcases b with _ | _
  · simp only [stepEntity, he]
    rw [show parseTripUpdate tu opts = none from by simp [parseTripUpdate, ht]]
    simp
  · simp [stepEntity]

/-- C9: `ParseRealtime` fails exactly when the envelope fails to decode, and
then returns no partial result; every decoded envelope yields a result with
no error (the whole pipeline is a total function on decoded messages); and
a trip-update entity lacking a trip descriptor is silently dropped, leaving
the result of processing the remaining entities unchanged. -/
theorem C9_error_handling :
    (∀ opts, ParseRealtime none opts = none) ∧
    (∀ msg opts, ∃ r, ParseRealtime (some msg) opts = some r) ∧
    (∀ opts createdAt l1 l2 (b : Bool) (e : FeedEntity) tu,
      e.TripUpdate = some tu → tu.Trip = none →
      processEntities opts createdAt (l1 ++ (b, e) :: l2) =
        processEntities opts createdAt (l1 ++ l2)) := by
  refine ⟨fun _ => rfl, fun msg opts => ⟨_, rfl⟩, ?_⟩
  intro opts createdAt l1 l2 b e tu he ht
  unfold processEntities
  congr 1
  have h1 : runEntities opts (l1 ++ (b, e) :: l2) =
      l2.foldl (stepEntity opts) (stepEntity opts (runEntities opts l1) (b, e)) := by
    simpa using runEntities_append opts l1 ((b, e) :: l2)
  rw [h1, stepEntity_dropped opts _ b e tu he ht, ← runEntities_append]

/-- Witness for C9: dropping a concrete descriptor-less trip update from a
concrete singleton message leaves the result unchanged. -/
theorem C9_error_handling_witness :
    processEntities ⟨fun _ _ _ => 0⟩ none
        ([] ++ (false, (⟨none, some ⟨none, none, []⟩, none, none⟩ : FeedEntity)) :: []) =
      processEntities ⟨fun _ _ _ => 0⟩ none ([] ++ []) :=
  C9_error_handling.2.2 ⟨fun _ _ _ => 0⟩ none [] [] false _ _ rfl rfl

/-! Occurrence lists: the decoded trips and vehicles one entity contributes to
the merge maps, in processing order. -/

/-- The decoded trips an entity contributes (trip updates and vehicle
positions contribute at most one; alerts contribute their implied trips). -/
def entityTrips (opts : ParseRealtimeOptions) (be : Bool × FeedEntity) : List Trip :=
  if be.1 then []
  else
    match be.2.TripUpdate with
    | some tu =>
      match parseTripUpdate tu opts with
      | none => []
      | some (t, _) => [t]
    | none =>
      match be.2.Vehicle with
      | some vp => (parseVehicle vp opts).1.toList
      | none =>
        match be.2.Alert with
        | some al => (parseAlert (be.2.Id.getD []) al opts).2
        | none => []

/-- The decoded vehicles an entity contributes. -/
def entityVehicles (opts : ParseRealtimeOptions) (be : Bool × FeedEntity) : List Vehicle :=
  if be.1 then []
  else
    match be.2.TripUpdate with
    | some tu =>
      match parseTripUpdate tu opts with
      | none => []
      | some (_, v) => v.toList
    | none =>
      match be.2.Vehicle with
      | some vp => [(parseVehicle vp opts).2]
      | none => []

/-- Merging one decoded vehicle into the state maps: identified vehicles go
through `vehiclesByID`, unidentified ones are appended to the no-ID list. -/
def vehicleMapStep (m : List (VehicleID × Vehicle)) (v : Vehicle) :
    List (VehicleID × Vehicle) :=
  match v.ID with
  | some vid => updVehiclesByID m vid v
  | none => m

theorem stepEntity_tripsById (opts : ParseRealtimeOptions) (st : RTState)
    (be : Bool × FeedEntity) :
    (stepEntity opts st be).tripsById = (entityTrips opts be).foldl updTripsById st.tripsById := by
  rcases be with ⟨b, e⟩
  cases b
  case true => simp [stepEntity, entityTrips]
  case false =>
    rcases htu : e.TripUpdate with _ | tu
    · rcases hvp : e.Vehicle with _ | vp
      · rcases hal : e.Alert with _ | al
        · simp [stepEntity, entityTrips, htu, hvp, hal]
        · simp [stepEntity, entityTrips, htu, hvp, hal, applyDecoded]
      · rcases hpv : parseVehicle vp opts with ⟨t, v⟩
        rcases t with _ | t
        · rcases hvid : v.ID with _ | vid <;>
            simp [stepEntity, entityTrips, htu, hvp, hpv, applyDecoded, hvid]
        · rcases hvid : v.ID with _ | vid <;>
            simp [stepEntity, entityTrips, htu, hvp, hpv, applyDecoded, hvid]
    · rcases hp : parseTripUpdate tu opts with _ | tv
      · simp [stepEntity, entityTrips, htu, hp]
      · rcases tv with ⟨t, v⟩
        rcases v with _ | v
        · simp [stepEntity, entityTrips, htu, hp, applyDecoded]
        · rcases hvid : v.ID with _ | vid <;>
            simp [stepEntity, entityTrips, htu, hp, applyDecoded, hvid]

theorem stepEntity_vehiclesByID (opts : ParseRealtimeOptions) (st : RTState)
    (be : Bool × FeedEntity) :
    (stepEntity opts st be).vehiclesByID =
      (entityVehicles opts be).foldl vehicleMapStep st.vehiclesByID := by
  rcases be with ⟨b, e⟩
  cases b
  case true => simp [stepEntity, entityVehicles]
  case false =>
    rcases htu : e.TripUpdate with _ | tu
    · rcases hvp : e.Vehicle with _ | vp
      · rcases hal : e.Alert with _ | al
        · simp [stepEntity, entityVehicles, htu, hvp, hal]
        · simp [stepEntity, entityVehicles, htu, hvp, hal, applyDecoded]
      · rcases hpv : parseVehicle vp opts with ⟨t, v⟩
        rcases t with _ | t <;>
          rcases hvid : v.ID with _ | vid <;>
            simp [stepEntity, entityVehicles, htu, hvp, hpv, applyDecoded, vehicleMapStep, hvid]
    · rcases hp : parseTripUpdate tu opts with _ | tv
      · simp [stepEntity, entityVehicles, htu, hp]
      · rcases tv with ⟨t, v⟩
        rcases v with _ | v
        · simp [stepEntity, entityVehicles, htu, hp, applyDecoded]
        · rcases hvid : v.ID with _ | vid <;>
            simp [stepEntity, entityVehicles, htu, hp, applyDecoded, vehicleMapStep, hvid]

/-- Lookup after merging one decoded trip. -/
theorem updTripsById_lookup (m : List (TripID × Trip)) (t : Trip) (k : TripID) :
    alLookup (updTripsById m t) k =
      if t.ID = k then some (mergeTrip ((alLookup m t.ID).getD zeroTrip) t)
      else alLookup m k := by
  by_cases h : t.ID = k
  · subst h
    simp [updTripsById, alLookup_update_same]
  · rw [if_neg h, updTripsById, alLookup_update_ne]
    exact fun he => h he.symm

/-- The per-key effect of a run of trip merges. -/
def mergeStepOptTrip (acc : Option Trip) (t : Trip) : Option Trip :=
  some (mergeTrip (acc.getD zeroTrip) t)

theorem foldl_updTripsById_lookup (ts : List Trip) (m : List (TripID × Trip)) (k : TripID) :
    alLookup (ts.foldl updTripsById m) k =
      (ts.filter fun t => decide (t.ID = k)).foldl mergeStepOptTrip (alLookup m k) := by
  induction ts generalizing m with
  | nil => rfl
  | cons t ts ih =>
    by_cases h : t.ID = k
    · subst h
      simp only [List.foldl_cons, List.filter_cons, decide_eq_true_eq, if_pos rfl]
      rw [ih]
      simp [updTripsById_lookup, mergeStepOptTrip]
    · simp only [List.foldl_cons, List.filter_cons, decide_eq_true_eq, if_neg h]
      rw [ih, updTripsById_lookup, if_neg h]

/-- The decoded-trip occurrences of an identity `k` across the message, in
feed order. -/
def tripOccurrences (opts : ParseRealtimeOptions) (l : List (Bool × FeedEntity))
    (k : TripID) : List Trip :=
  (l.flatMap (entityTrips opts)).filter fun t => decide (t.ID = k)

theorem runEntities_tripsById_lookup (opts : ParseRealtimeOptions)
    (l : List (Bool × FeedEntity)) (k : TripID) :
    alLookup (runEntities opts l).tripsById k =
      (tripOccurrences opts l k).foldl mergeStepOptTrip none := by
  suffices h : ∀ st : RTState,
      alLookup (l.foldl (stepEntity opts) st).tripsById k =
        (tripOccurrences opts l k).foldl mergeStepOptTrip (alLookup st.tripsById k) by
    simpa [runEntities, RTState.empty, alLookup] using h RTState.empty
  induction l with
  | nil => intro st; rfl
  | cons be l ih =>
    intro st
    have h1 : tripOccurrences opts (be :: l) k =
        ((entityTrips opts be).filter fun t => decide (t.ID = k)) ++ tripOccurrences opts l k := by
      simp [tripOccurrences, List.filter_append]
    rw [List.foldl_cons, ih (stepEntity opts st be), h1, List.foldl_append,
      stepEntity_tripsById, foldl_updTripsById_lookup]

/-- Folding the per-key merge steps from an empty slot merges the occurrence
list through `mergeTrip` starting at the zero trip. -/
theorem foldl_mergeStepOptTrip_none (occs : List Trip) :
    occs.foldl mergeStepOptTrip none =
      (if occs.isEmpty then none else some (occs.foldl mergeTrip zeroTrip)) := by
  have haux : ∀ (ts : List Trip) (t0 : Trip),
      ts.foldl mergeStepOptTrip (some t0) = some (ts.foldl mergeTrip t0) := by
    intro ts
    induction ts with
    | nil => intro t0; rfl
    | cons t ts ih => intro t0; simpa [mergeStepOptTrip] using ih (mergeTrip t0 t)
  rcases occs with _ | ⟨t, ts⟩
  · rfl
  · simpa [mergeStepOptTrip] using haux ts (mergeTrip zeroTrip t)

/-- The content the merge rule leaves for an identity: the last real
(IsEntityInMessage) occurrence, or an identity-only placeholder when every
occurrence is a placeholder. -/
def lastRealOrPlaceholderTrip (k : TripID) (occs : List Trip) : Trip :=
  match (occs.filter fun t => t.IsEntityInMessage).getLast? with
  | some t => t
  | none => { zeroTrip with ID := k }

theorem foldl_mergeTrip_lastReal (k : TripID) (occs : List Trip) (hne : occs ≠ [])
    (hall : ∀ t ∈ occs, t.ID = k) :
    occs.foldl mergeTrip zeroTrip = lastRealOrPlaceholderTrip k occs := by
  induction occs using List.reverseRecOn with
  | nil => exact absurd rfl hne
  | append_singleton l x ih =>
    have hx : x.ID = k := hall x (by simp)
    rw [List.foldl_append]
    rcases hreal : x.IsEntityInMessage with _ | _
    · have hfilter : ((l ++ [x]).filter fun t => t.IsEntityInMessage) =
          l.filter fun t => t.IsEntityInMessage := by
        simp [List.filter_append, hreal]
      rcases hl : l with _ | ⟨y, ys⟩
      · simp only [hl, List.nil_append, List.foldl_nil, List.foldl_cons] at *
        simp [mergeTrip, hreal, lastRealOrPlaceholderTrip, hx]
      · have hlne : l ≠ [] := by simp [hl]
        rw [← hl] at *
        have hall2 : ∀ t ∈ l, t.ID = k := fun t ht => hall t (by simp [ht])
        rw [ih hlne hall2]
        simp only [lastRealOrPlaceholderTrip, hfilter]
        rcases hlast : (l.filter fun t => t.IsEntityInMessage).getLast? with _ | t
        · simp only [hlast]
          simp [mergeTrip, hreal, hx]
        · have htmem : t ∈ l.filter fun u => u.IsEntityInMessage := by
            obtain ⟨hh, he⟩ := List.mem_getLast?_eq_getLast (by rw [hlast]; rfl)
            exact he ▸ List.getLast_mem hh
          have ht : t ∈ l := List.mem_of_mem_filter htmem
          have htk : t.ID = k := hall2 t ht
          simp only [hlast]
          cases t
          simp_all [mergeTrip]
    · have hfilter : ((l ++ [x]).filter fun t => t.IsEntityInMessage) =
          (l.filter fun t => t.IsEntityInMessage) ++ [x] := by
        simp [List.filter_append, hreal]
      simp [lastRealOrPlaceholderTrip, hfilter, mergeTrip, hreal]

theorem vehicleMapStep_lookup (m : List (VehicleID × Vehicle)) (v : Vehicle) (k : VehicleID) :
    alLookup (vehicleMapStep m v) k =
      if v.ID = some k then some (mergeVehicle ((alLookup m k).getD zeroVehicle) v)
      else alLookup m k := by
  rcases hvid : v.ID with _ | vid
  · simp [vehicleMapStep, hvid]
  · by_cases h : vid = k
    · subst h
      simp [vehicleMapStep, hvid, updVehiclesByID, alLookup_update_same]
    · rw [vehicleMapStep, hvid, if_neg (by simpa using fun he => h he)]
      exact alLookup_update_ne _ _ _ _ fun he => h he.symm

/-- The per-key effect of a run of vehicle merges. -/
def mergeStepOptVehicle (acc : Option Vehicle) (v : Vehicle) : Option Vehicle :=
  some (mergeVehicle (acc.getD zeroVehicle) v)

theorem foldl_vehicleMapStep_lookup (vs : List Vehicle) (m : List (VehicleID × Vehicle))
    (k : VehicleID) :
    alLookup (vs.foldl vehicleMapStep m) k =
      (vs.filter fun v => decide (v.ID = some k)).foldl mergeStepOptVehicle (alLookup m k) := by
  induction vs generalizing m with
  | nil => rfl
  | cons v vs ih =>
    by_cases h : v.ID = some k
    · simp only [List.foldl_cons, List.filter_cons, decide_eq_true_eq, if_pos h]
      rw [ih]
      simp [vehicleMapStep_lookup, h, mergeStepOptVehicle]
    · simp only [List.foldl_cons, List.filter_cons, decide_eq_true_eq, if_neg h]
      rw [ih, vehicleMapStep_lookup, if_neg h]

/-- The decoded-vehicle occurrences of an identity `k` across the message, in
feed order. -/
def vehicleOccurrences (opts : ParseRealtimeOptions) (l : List (Bool × FeedEntity))
    (k : VehicleID) : List Vehicle :=
  (l.flatMap (entityVehicles opts)).filter fun v => decide (v.ID = some k)

theorem runEntities_vehiclesByID_lookup (opts : ParseRealtimeOptions)
    (l : List (Bool × FeedEntity)) (k : VehicleID) :
    alLookup (runEntities opts l).vehiclesByID k =
      (vehicleOccurrences opts l k).foldl mergeStepOptVehicle none := by
  suffices h : ∀ st : RTState,
      alLookup (l.foldl (stepEntity opts) st).vehiclesByID k =
        (vehicleOccurrences opts l k).foldl mergeStepOptVehicle (alLookup st.vehiclesByID k) by
    simpa [runEntities, RTState.empty, alLookup] using h RTState.empty
  induction l with
  | nil => intro st; rfl
  | cons be l ih =>
    intro st
    have h1 : vehicleOccurrences opts (be :: l) k =
        ((entityVehicles opts be).filter fun v => decide (v.ID = some k)) ++
          vehicleOccurrences opts l k := by
      simp [vehicleOccurrences, List.filter_append]
    rw [List.foldl_cons, ih (stepEntity opts st be), h1, List.foldl_append,
      stepEntity_vehiclesByID, foldl_vehicleMapStep_lookup]

theorem foldl_mergeStepOptVehicle_none (occs : List Vehicle) :
    occs.foldl mergeStepOptVehicle none =
      (if occs.isEmpty then none else some (occs.foldl mergeVehicle zeroVehicle)) := by
  have haux : ∀ (vs : List Vehicle) (v0 : Vehicle),
      vs.foldl mergeStepOptVehicle (some v0) = some (vs.foldl mergeVehicle v0) := by
    intro vs
    induction vs with
    | nil => intro v0; rfl
    | cons v vs ih => intro v0; simpa [mergeStepOptVehicle] using ih (mergeVehicle v0 v)
  rcases occs with _ | ⟨v, vs⟩
  · rfl
  · simpa [mergeStepOptVehicle] using haux vs (mergeVehicle zeroVehicle v)

/-- The vehicle content left for an identity by the merge rule. -/
def lastRealOrPlaceholderVehicle (k : VehicleID) (occs : List Vehicle) : Vehicle :=
  match (occs.filter fun v => v.IsEntityInMessage).getLast? with
  | some v => v
  | none => { zeroVehicle with ID := some k }

theorem foldl_mergeVehicle_lastReal (k : VehicleID) (occs : List Vehicle) (hne : occs ≠ [])
    (hall : ∀ v ∈ occs, v.ID = some k) :
    occs.foldl mergeVehicle zeroVehicle = lastRealOrPlaceholderVehicle k occs := by
  induction occs using List.reverseRecOn with
  | nil => exact absurd rfl hne
  | append_singleton l x ih =>
    have hx : x.ID = some k := hall x (by simp)
    rw [List.foldl_append]
    rcases hreal : x.IsEntityInMessage with _ | _
    · have hfilter : ((l ++ [x]).filter fun v => v.IsEntityInMessage) =
          l.filter fun v => v.IsEntityInMessage := by
        simp [List.filter_append, hreal]
      rcases hl : l with _ | ⟨y, ys⟩
      · simp only [hl, List.nil_append, List.foldl_nil, List.foldl_cons] at *
        simp [mergeVehicle, hreal, lastRealOrPlaceholderVehicle, hx]
      · have hlne : l ≠ [] := by simp [hl]
        rw [← hl] at *
        have hall2 : ∀ v ∈ l, v.ID = some k := fun v hv => hall v (by simp [hv])
        rw [ih hlne hall2]
        simp only [lastRealOrPlaceholderVehicle, hfilter]
        rcases hlast : (l.filter fun v => v.IsEntityInMessage).getLast? with _ | v
        · simp only [hlast]
          simp [mergeVehicle, hreal, hx]
        · have hvmem : v ∈ l.filter fun u => u.IsEntityInMessage := by
            obtain ⟨hh, he⟩ := List.mem_getLast?_eq_getLast (by rw [hlast]; rfl)
            exact he ▸ List.getLast_mem hh
          have hv : v ∈ l := List.mem_of_mem_filter hvmem
          have hvk : v.ID = some k := hall2 v hv
          simp only [hlast]
          cases v
          simp_all [mergeVehicle]
    · have hfilter : ((l ++ [x]).filter fun v => v.IsEntityInMessage) =
          (l.filter fun v => v.IsEntityInMessage) ++ [x] := by
        simp [List.filter_append, hreal]
      simp [lastRealOrPlaceholderVehicle, hfilter, mergeVehicle, hreal]

theorem mem_alUpdate {κ β : Type} [DecidableEq κ] (m : List (κ × β)) (k : κ) (v : β)
    (p : κ × β) (h : p ∈ alUpdate m k v) : p ∈ m ∨ p = (k, v) := by
  induction m with
  | nil => simpa [alUpdate] using h
  | cons kv rest ih =>
    obtain ⟨a, b⟩ := kv
    by_cases hk : a = k
    · rw [alUpdate, if_pos hk] at h
      rcases List.mem_cons.mp h with h1 | h1
      · exact Or.inr h1
      · exact Or.inl (List.mem_cons_of_mem _ h1)
    · rw [alUpdate, if_neg hk] at h
      rcases List.mem_cons.mp h with h1 | h1
      · exact Or.inl (h1 ▸ List.mem_cons_self _ _)
      · rcases ih h1 with h2 | h2
        · exact Or.inl (List.mem_cons_of_mem _ h2)
        · exact Or.inr h2

theorem mergeTrip_ID (a b : Trip) : (mergeTrip a b).ID = b.ID := by
  rcases h : b.IsEntityInMessage <;> simp [mergeTrip, h]

theorem mergeVehicle_ID (a b : Vehicle) : (mergeVehicle a b).ID = b.ID := by
  rcases h : b.IsEntityInMessage <;> simp [mergeVehicle, h]

/-- Invariant of `tripsById`: keys are distinct and every stored trip carries
its key as its ID. -/
theorem runEntities_tripsById_inv (opts : ParseRealtimeOptions)
    (l : List (Bool × FeedEntity)) :
    (alKeys (runEntities opts l).tripsById).Nodup ∧
      ∀ p ∈ (runEntities opts l).tripsById, (p.2 : Trip).ID = p.1 := by
  suffices h : ∀ st : RTState,
      (alKeys st.tripsById).Nodup → (∀ p ∈ st.tripsById, (p.2 : Trip).ID = p.1) →
      (alKeys (l.foldl (stepEntity opts) st).tripsById).Nodup ∧
        ∀ p ∈ (l.foldl (stepEntity opts) st).tripsById, (p.2 : Trip).ID = p.1 by
    exact h RTState.empty (by simp [RTState.empty, alKeys]) (by simp [RTState.empty])
  have hstep : ∀ (m : List (TripID × Trip)) (ts : List Trip),
      (alKeys m).Nodup → (∀ p ∈ m, (p.2 : Trip).ID = p.1) →
      (alKeys (ts.foldl updTripsById m)).Nodup ∧
        ∀ p ∈ ts.foldl updTripsById m, (p.2 : Trip).ID = p.1 := by
    intro m ts
    induction ts generalizing m with
    | nil => exact fun h1 h2 => ⟨h1, h2⟩
    | cons t ts ih =>
      intro h1 h2
      refine ih _ (alKeys_update_nodup _ _ _ h1) ?_
      intro p hp
      rcases mem_alUpdate _ _ _ _ hp with h3 | h3
      · exact h2 p h3
      · rw [h3]
        exact mergeTrip_ID _ _
  induction l with
  | nil => exact fun st h1 h2 => ⟨h1, h2⟩
  | cons be l ih =>
    intro st h1 h2
    rw [List.foldl_cons]
    refine ih _ ?_ ?_
    · rw [stepEntity_tripsById]
      exact (hstep _ _ h1 h2).1
    · rw [stepEntity_tripsById]
      exact (hstep _ _ h1 h2).2

/-- Invariant of `vehiclesByID`: keys are distinct and every stored vehicle
carries its key as its ID. -/
theorem runEntities_vehiclesByID_inv (opts : ParseRealtimeOptions)
    (l : List (Bool × FeedEntity)) :
    (alKeys (runEntities opts l).vehiclesByID).Nodup ∧
      ∀ p ∈ (runEntities opts l).vehiclesByID, (p.2 : Vehicle).ID = some p.1 := by
  suffices h : ∀ st : RTState,
      (alKeys st.vehiclesByID).Nodup → (∀ p ∈ st.vehiclesByID, (p.2 : Vehicle).ID = some p.1) →
      (alKeys (l.foldl (stepEntity opts) st).vehiclesByID).Nodup ∧
        ∀ p ∈ (l.foldl (stepEntity opts) st).vehiclesByID, (p.2 : Vehicle).ID = some p.1 by
    exact h RTState.empty (by simp [RTState.empty, alKeys]) (by simp [RTState.empty])
  have hstep : ∀ (m : List (VehicleID × Vehicle)) (vs : List Vehicle),
      (alKeys m).Nodup → (∀ p ∈ m, (p.2 : Vehicle).ID = some p.1) →
      (alKeys (vs.foldl vehicleMapStep m)).Nodup ∧
        ∀ p ∈ vs.foldl vehicleMapStep m, (p.2 : Vehicle).ID = some p.1 := by
    intro m vs
    induction vs generalizing m with
    | nil => exact fun h1 h2 => ⟨h1, h2⟩
    | cons v vs ih =>
      intro h1 h2
      rcases hvid : v.ID with _ | vid
      · rw [List.foldl_cons, vehicleMapStep, hvid]
        exact ih _ h1 h2
      · rw [List.foldl_cons, vehicleMapStep, hvid]
        refine ih _ (alKeys_update_nodup _ _ _ h1) ?_
        intro p hp
        rcases mem_alUpdate _ _ _ _ hp with h3 | h3
        · exact h2 p h3
        · rw [h3]
          rw [mergeVehicle_ID]
          exact hvid
  induction l with
  | nil => exact fun st h1 h2 => ⟨h1, h2⟩
  | cons be l ih =>
    intro st h1 h2
    rw [List.foldl_cons]
    refine ih _ ?_ ?_
    · rw [stepEntity_vehiclesByID]
      exact (hstep _ _ h1 h2).1
    · rw [stepEntity_vehiclesByID]
      exact (hstep _ _ h1 h2).2

theorem stepEntity_vehiclesWithNoID (opts : ParseRealtimeOptions) (st : RTState)
    (be : Bool × FeedEntity) :
    (stepEntity opts st be).vehiclesWithNoID =
      st.vehiclesWithNoID ++ (entityVehicles opts be).filter fun v => v.ID.isNone := by
  rcases be with ⟨b, e⟩
  cases b
  case true => simp [stepEntity, entityVehicles]
  case false =>
    rcases htu : e.TripUpdate with _ | tu
    · rcases hvp : e.Vehicle with _ | vp
      · rcases hal : e.Alert with _ | al
        · simp [stepEntity, entityVehicles, htu, hvp, hal]
        · simp [stepEntity, entityVehicles, htu, hvp, hal, applyDecoded]
      · rcases hpv : parseVehicle vp opts with ⟨t, v⟩
        rcases t with _ | t <;>
          rcases hvid : v.ID with _ | vid <;>
            simp [stepEntity, entityVehicles, htu, hvp, hpv, applyDecoded, hvid]
    · rcases hp : parseTripUpdate tu opts with _ | tv
      · simp [stepEntity, entityVehicles, htu, hp]
      · rcases tv with ⟨t, v⟩
        rcases v with _ | v
        · simp [stepEntity, entityVehicles, htu, hp, applyDecoded]
        · rcases hvid : v.ID with _ | vid <;>
            simp [stepEntity, entityVehicles, htu, hp, applyDecoded, hvid]

/-- Every vehicle on the no-identity list has no ID. -/
theorem runEntities_vehiclesWithNoID_inv (opts : ParseRealtimeOptions)
    (l : List (Bool × FeedEntity)) :
    ∀ v ∈ (runEntities opts l).vehiclesWithNoID, v.ID = none := by
  suffices h : ∀ st : RTState, (∀ v ∈ st.vehiclesWithNoID, v.ID = none) →
      ∀ v ∈ (l.foldl (stepEntity opts) st).vehiclesWithNoID, v.ID = none by
    exact h RTState.empty (by simp [RTState.empty])
  induction l with
  | nil => exact fun st h => h
  | cons be l ih =>
    intro st h1
    rw [List.foldl_cons]
    refine ih _ ?_
    rw [stepEntity_vehiclesWithNoID]
    intro v hv
    rcases List.mem_append.mp hv with h2 | h2
    · exact h1 v h2
    · have h3 := List.of_mem_filter h2
      exact Option.isNone_iff_eq_none.mp h3

theorem sortTripsInsert_perm (t : TripOut) (l : List TripOut) :
    (sortTripsInsert t l).Perm (t :: l) := by
  induction l with
  | nil => rfl
  | cons u rest ih =>
    by_cases h : TripID.Less u.toTrip.ID t.toTrip.ID
    · rw [sortTripsInsert, if_pos h]
      exact (List.Perm.cons u ih).trans (List.Perm.swap t u rest)
    · rw [sortTripsInsert, if_neg h]

theorem sortTrips_perm (l : List TripOut) : (sortTrips l).Perm l := by
  induction l with
  | nil => rfl
  | cons t rest ih =>
    exact (sortTripsInsert_perm t (sortTrips rest)).trans (List.Perm.cons t ih)

/-- Filtering an association-list image by a key picks exactly the entry the
lookup finds, provided keys are distinct and each value carries its key. -/
theorem filter_key_of_assoc (m : List (TripID × Trip)) (f : TripID × Trip → TripOut)
    (hf : ∀ kv, (f kv).toTrip = kv.2) (k : TripID) (hnd : (alKeys m).Nodup)
    (hids : ∀ p ∈ m, (p.2 : Trip).ID = p.1) :
    ((m.map f).filter fun t => decide (t.toTrip.ID = k)) =
      match alLookup m k with
      | some tc => [f (k, tc)]
      | none => [] := by
  induction m with
  | nil => rfl
  | cons kv rest ih =>
    obtain ⟨a, b⟩ := kv
    have hid : b.ID = a := hids (a, b) (List.mem_cons_self _ _)
    have hnd' : (a :: alKeys rest).Nodup := hnd
    have hnd0 := List.nodup_cons.mp hnd'
    have hrest := ih hnd0.2 fun p hp => hids p (List.mem_cons_of_mem _ hp)
    by_cases h : a = k
    · subst h
      have hrestnil : ((rest.map f).filter fun t => decide (t.toTrip.ID = a)) = [] := by
        rw [List.filter_eq_nil_iff]
        intro t ht
        obtain ⟨p, hp, rfl⟩ := List.mem_map.mp ht
        rw [hf p, hids p (List.mem_cons_of_mem _ hp)]
        have := List.mem_map_of_mem Prod.fst hp
        intro hcon
        exact hnd0.1 (by simpa [alKeys, decide_eq_true_eq.mp hcon] using this)
      simp only [List.map_cons, List.filter_cons, hf, hid, decide_True, alLookup, if_pos rfl,
        hrestnil]
      rfl
    · simp only [List.map_cons, List.filter_cons, hf, hid, alLookup, if_neg h, hrest]
      simp [h]

/-- Vehicle-side analogue of `filter_key_of_assoc`. -/
theorem filter_key_of_assocV (m : List (VehicleID × Vehicle)) (f : VehicleID × Vehicle → VehicleOut)
    (hf : ∀ kv, (f kv).toVehicle = kv.2) (k : VehicleID) (hnd : (alKeys m).Nodup)
    (hids : ∀ p ∈ m, (p.2 : Vehicle).ID = some p.1) :
    ((m.map f).filter fun v => decide (v.toVehicle.ID = some k)) =
      match alLookup m k with
      | some vc => [f (k, vc)]
      | none => [] := by
  induction m with
  | nil => rfl
  | cons kv rest ih =>
    obtain ⟨a, b⟩ := kv
    have hid : b.ID = some a := hids (a, b) (List.mem_cons_self _ _)
    have hnd' : (a :: alKeys rest).Nodup := hnd
    have hnd0 := List.nodup_cons.mp hnd'
    have hrest := ih hnd0.2 fun p hp => hids p (List.mem_cons_of_mem _ hp)
    by_cases h : a = k
    · subst h
      have hrestnil : ((rest.map f).filter fun v => decide (v.toVehicle.ID = some a)) = [] := by
        rw [List.filter_eq_nil_iff]
        intro v hv
        obtain ⟨p, hp, rfl⟩ := List.mem_map.mp hv
        rw [hf p, hids p (List.mem_cons_of_mem _ hp)]
        have := List.mem_map_of_mem Prod.fst hp
        intro hcon
        have : a ∈ alKeys rest := by
          have he : p.1 = a := by simpa using decide_eq_true_eq.mp hcon
          simpa [alKeys, he] using this
        exact hnd0.1 this
      simp only [List.map_cons, List.filter_cons, hf, hid, decide_True, alLookup, if_pos rfl,
        hrestnil]
      rfl
    · simp only [List.map_cons, List.filter_cons, hf, hid, alLookup, if_neg h, hrest]
      simp [h]

/-- C1: for every message and every trip (resp. vehicle) identity, merging an
incoming decoded entity copies the identity unconditionally and otherwise
either keeps the stored content (incoming placeholder) or overwrites it
entirely (incoming in-message entity); consequently the emitted Trip
(resp. Vehicle) of an identity that occurs in at least one non-skipped
decoded entity carries exactly the content of the last
IsEntityInMessage=true occurrence of that identity in feed order, or the
identity-only placeholder content when every occurrence is a placeholder. -/
theorem C1_merge_last_real_wins :
    (∀ t new : Trip, mergeTrip t new =
        if new.IsEntityInMessage then new else { t with ID := new.ID }) ∧
    (∀ v new : Vehicle, mergeVehicle v new =
        if new.IsEntityInMessage then new else { v with ID := new.ID }) ∧
    (∀ opts createdAt l k, tripOccurrences opts l k ≠ [] →
      (((processEntities opts createdAt l).Trips.filter
          fun t => decide (t.toTrip.ID = k)).map (·.toTrip)) =
        [lastRealOrPlaceholderTrip k (tripOccurrences opts l k)]) ∧
    (∀ opts createdAt l k, vehicleOccurrences opts l k ≠ [] →
      (((processEntities opts createdAt l).Vehicles.filter
          fun v => decide (v.toVehicle.ID = some k)).map (·.toVehicle)) =
        [lastRealOrPlaceholderVehicle k (vehicleOccurrences opts l k)]) := by
  refine ⟨?_, ?_, ?_, ?_⟩
  · intro t new
    rcases h : new.IsEntityInMessage <;> simp [mergeTrip, h]
  · intro v new
    rcases h : new.IsEntityInMessage <;> simp [mergeVehicle, h]
  · intro opts createdAt l k hne
    set st := runEntities opts l with hst
    have hocc : ∀ t ∈ tripOccurrences opts l k, t.ID = k := by
      intro t ht
      rw [tripOccurrences, List.mem_filter] at ht
      exact decide_eq_true_eq.mp ht.2
    have hlook : alLookup st.tripsById k =
        some (lastRealOrPlaceholderTrip k (tripOccurrences opts l k)) := by
      rw [hst, runEntities_tripsById_lookup, foldl_mergeStepOptTrip_none,
        if_neg (by simpa using hne), foldl_mergeTrip_lastReal k _ hne hocc]
    have hinv := runEntities_tripsById_inv opts l
    have hfil := filter_key_of_assoc st.tripsById
      (fun kv => ⟨kv.2, tripVehicleLink st kv.1⟩) (fun kv => rfl) k hinv.1 hinv.2
    rw [hlook] at hfil
    have hperm : ((processEntities opts createdAt l).Trips.filter
        fun t => decide (t.toTrip.ID = k)).Perm
        ((st.tripsById.map fun kv => (⟨kv.2, tripVehicleLink st kv.1⟩ : TripOut)).filter
          fun t => decide (t.toTrip.ID = k)) :=
      List.Perm.filter _ (sortTrips_perm _)
    rw [hfil] at hperm
    rw [List.perm_singleton.mp hperm]
    simp
  · intro opts createdAt l k hne
    set st := runEntities opts l with hst
    have hocc : ∀ v ∈ vehicleOccurrences opts l k, v.ID = some k := by
      intro v hv
      rw [vehicleOccurrences, List.mem_filter] at hv
      exact decide_eq_true_eq.mp hv.2
    have hlook : alLookup st.vehiclesByID k =
        some (lastRealOrPlaceholderVehicle k (vehicleOccurrences opts l k)) := by
      rw [hst, runEntities_vehiclesByID_lookup, foldl_mergeStepOptVehicle_none,
        if_neg (by simpa using hne), foldl_mergeVehicle_lastReal k _ hne hocc]
    have hinv := runEntities_vehiclesByID_inv opts l
    have hfil := filter_key_of_assocV st.vehiclesByID
      (fun kv => ⟨kv.2, vehicleTripLink st kv.1⟩) (fun kv => rfl) k hinv.1 hinv.2
    rw [hlook] at hfil
    have hnoid : ((st.vehiclesWithNoID.map fun v => (⟨v, none⟩ : VehicleOut)).filter
        fun v => decide (v.toVehicle.ID = some k)) = [] := by
      rw [List.filter_eq_nil_iff]
      intro v hv
      obtain ⟨w, hw, rfl⟩ := List.mem_map.mp hv
      have := runEntities_vehiclesWithNoID_inv opts l w (by rwa [← hst])
      simp [this]
    have heq : (processEntities opts createdAt l).Vehicles.filter
        (fun v => decide (v.toVehicle.ID = some k)) =
        [⟨lastRealOrPlaceholderVehicle k (vehicleOccurrences opts l k), vehicleTripLink st k⟩] := by
      show ((st.vehiclesByID.map fun kv => (⟨kv.2, vehicleTripLink st kv.1⟩ : VehicleOut)) ++
          st.vehiclesWithNoID.map fun v => (⟨v, none⟩ : VehicleOut)).filter
            (fun v => decide (v.toVehicle.ID = some k)) = _
      rw [List.filter_append, hfil, hnoid, List.append_nil]
    rw [heq]
    simp

/-- Witness for C1: a concrete message with one trip update produces exactly
that trip as the emitted content for its identity. -/
theorem C1_merge_last_real_wins_witness :
    tripOccurrences ⟨fun _ _ _ => 0⟩
        [(false, (⟨none, some ⟨some ⟨some [116], none, none, none, none, none⟩, none, []⟩,
          none, none⟩ : FeedEntity))]
        ⟨[116], [], DirectionID.Unspecified, false, 0, false, goZeroTimeUnix, 0⟩ ≠ [] ∧
      (((processEntities ⟨fun _ _ _ => 0⟩ none
          [(false, (⟨none, some ⟨some ⟨some [116], none, none, none, none, none⟩, none, []⟩,
            none, none⟩ : FeedEntity))]).Trips.filter
          fun t => decide (t.toTrip.ID =
            ⟨[116], [], DirectionID.Unspecified, false, 0, false, goZeroTimeUnix, 0⟩)).map
          (·.toTrip)) =
        [lastRealOrPlaceholderTrip
          ⟨[116], [], DirectionID.Unspecified, false, 0, false, goZeroTimeUnix, 0⟩
          (tripOccurrences ⟨fun _ _ _ => 0⟩
            [(false, (⟨none, some ⟨some ⟨some [116], none, none, none, none, none⟩, none, []⟩,
              none, none⟩ : FeedEntity))]
            ⟨[116], [], DirectionID.Unspecified, false, 0, false, goZeroTimeUnix, 0⟩)] :=
  ⟨by decide, C1_merge_last_real_wins.2.2.1 ⟨fun _ _ _ => 0⟩ none _ _ (by decide)⟩

/-- The trip-to-vehicle association one entity records (nonempty exactly when
the entity decodes to both a trip and an identified vehicle). -/
def entityLinks (opts : ParseRealtimeOptions) (be : Bool × FeedEntity) :
    List (TripID × VehicleID) :=
  if be.1 then []
  else
    match be.2.TripUpdate with
    | some tu =>
      match parseTripUpdate tu opts with
      | some (t, some v) =>
        match v.ID with
        | some vid => [(t.ID, vid)]
        | none => []
      | _ => []
    | none =>
      match be.2.Vehicle with
      | some vp =>
        match parseVehicle vp opts with
        | (some t, v) =>
          match v.ID with
          | some vid => [(t.ID, vid)]
          | none => []
        | _ => []
      | none => []

/-- All association events of a message, in feed order. -/
def allLinks (opts : ParseRealtimeOptions) (l : List (Bool × FeedEntity)) :
    List (TripID × VehicleID) :=
  l.flatMap (entityLinks opts)

theorem stepEntity_links (opts : ParseRealtimeOptions) (st : RTState)
    (be : Bool × FeedEntity) :
    (stepEntity opts st be).tripIDToVehicleID =
        (entityLinks opts be).foldl (fun m p => alUpdate m p.1 p.2) st.tripIDToVehicleID ∧
      (stepEntity opts st be).vehicleIDToTripID =
        (entityLinks opts be).foldl (fun m p => alUpdate m p.2 p.1) st.vehicleIDToTripID := by
  rcases be with ⟨b, e⟩
  cases b
  case true => simp [stepEntity, entityLinks]
  case false =>
    rcases htu : e.TripUpdate with _ | tu
    · rcases hvp : e.Vehicle with _ | vp
      · rcases hal : e.Alert with _ | al
        · simp [stepEntity, entityLinks, htu, hvp, hal]
        · simp [stepEntity, entityLinks, htu, hvp, hal, applyDecoded]
      · rcases hpv : parseVehicle vp opts with ⟨t, v⟩
        rcases t with _ | t <;>
          rcases hvid : v.ID with _ | vid <;>
            simp [stepEntity, entityLinks, htu, hvp, hpv, applyDecoded, hvid]
    · rcases hp : parseTripUpdate tu opts with _ | tv
      · simp [stepEntity, entityLinks, htu, hp]
      · rcases tv with ⟨t, v⟩
        rcases v with _ | v
        · simp [stepEntity, entityLinks, htu, hp, applyDecoded]
        · rcases hvid : v.ID with _ | vid <;>
            simp [stepEntity, entityLinks, htu, hp, applyDecoded, hvid]

/-- Every recorded association comes with a decoded trip occurrence and a
decoded vehicle occurrence of the same entity. -/
theorem entityLinks_sub (opts : ParseRealtimeOptions) (be : Bool × FeedEntity)
    (t : TripID) (vid : VehicleID) (h : (t, vid) ∈ entityLinks opts be) :
    (∃ tr ∈ entityTrips opts be, tr.ID = t) ∧
      ∃ v ∈ entityVehicles opts be, v.ID = some vid := by
  rcases be with ⟨b, e⟩
  cases b
  case true => simp [entityLinks] at h
  case false =>
    rcases htu : e.TripUpdate with _ | tu
    · rcases hvp : e.Vehicle with _ | vp
      · simp [entityLinks, htu, hvp] at h
      · rcases hpv : parseVehicle vp opts with ⟨tr, v⟩
        rcases tr with _ | tr
        · simp [entityLinks, htu, hvp, hpv] at h
        · rcases hvid : v.ID with _ | vid2
          · simp [entityLinks, htu, hvp, hpv, hvid] at h
          · simp only [entityLinks, htu, hvp, hpv, hvid, if_neg Bool.false_ne_true,
              List.mem_singleton, Prod.mk.injEq] at h
            obtain ⟨rfl, rfl⟩ := h
            constructor
            · exact ⟨tr, by simp [entityTrips, htu, hvp, hpv], rfl⟩
            · exact ⟨v, by simp [entityVehicles, htu, hvp, hpv], hvid⟩
    · rcases hp : parseTripUpdate tu opts with _ | tv
      · simp [entityLinks, htu, hp] at h
      · rcases tv with ⟨tr, v⟩
        rcases v with _ | v
        · simp [entityLinks, htu, hp] at h
        · rcases hvid : v.ID with _ | vid2
          · simp [entityLinks, htu, hp, hvid] at h
          · simp only [entityLinks, htu, hp, hvid, if_neg Bool.false_ne_true,
              List.mem_singleton, Prod.mk.injEq] at h
            obtain ⟨rfl, rfl⟩ := h
            constructor
            · exact ⟨tr, by simp [entityTrips, htu, hp], rfl⟩
            · exact ⟨v, by simp [entityVehicles, htu, hp], hvid⟩

/-- Generic last-write fold for a map keyed by `f` with stored value `g`. -/
theorem foldl_alUpdate_lookup {γ κ ω : Type} [DecidableEq κ] (f : γ → κ) (g : γ → ω)
    (ps : List γ) (m : List (κ × ω)) (k : κ) :
    alLookup (ps.foldl (fun m p => alUpdate m (f p) (g p)) m) k =
      ps.foldl (fun acc p => if f p = k then some (g p) else acc) (alLookup m k) := by
  induction ps generalizing m with
  | nil => rfl
  | cons p ps ih =>
    rw [List.foldl_cons, List.foldl_cons, ih]
    by_cases h : f p = k
    · rw [if_pos h, h, alLookup_update_same]
    · rw [if_neg h, alLookup_update_ne _ _ _ _ fun he => h he.symm]

theorem runEntities_tripIDToVehicleID_lookup (opts : ParseRealtimeOptions)
    (l : List (Bool × FeedEntity)) (k : TripID) :
    alLookup (runEntities opts l).tripIDToVehicleID k =
      (allLinks opts l).foldl (fun acc p => if p.1 = k then some p.2 else acc) none := by
  suffices h : ∀ st : RTState,
      alLookup (l.foldl (stepEntity opts) st).tripIDToVehicleID k =
        (allLinks opts l).foldl (fun acc p => if p.1 = k then some p.2 else acc)
          (alLookup st.tripIDToVehicleID k) by
    simpa [runEntities, RTState.empty, alLookup] using h RTState.empty
  induction l with
  | nil => intro st; rfl
  | cons be l ih =>
    intro st
    have h1 : allLinks opts (be :: l) = entityLinks opts be ++ allLinks opts l := by
      simp [allLinks]
    rw [List.foldl_cons, ih (stepEntity opts st be), h1, List.foldl_append,
      (stepEntity_links opts st be).1, foldl_alUpdate_lookup Prod.fst Prod.snd]

theorem runEntities_vehicleIDToTripID_lookup (opts : ParseRealtimeOptions)
    (l : List (Bool × FeedEntity)) (k : VehicleID) :
    alLookup (runEntities opts l).vehicleIDToTripID k =
      (allLinks opts l).foldl (fun acc p => if p.2 = k then some p.1 else acc) none := by
  suffices h : ∀ st : RTState,
      alLookup (l.foldl (stepEntity opts) st).vehicleIDToTripID k =
        (allLinks opts l).foldl (fun acc p => if p.2 = k then some p.1 else acc)
          (alLookup st.vehicleIDToTripID k) by
    simpa [runEntities, RTState.empty, alLookup] using h RTState.empty
  induction l with
  | nil => intro st; rfl
  | cons be l ih =>
    intro st
    have h1 : allLinks opts (be :: l) = entityLinks opts be ++ allLinks opts l := by
      simp [allLinks]
    rw [List.foldl_cons, ih (stepEntity opts st be), h1, List.foldl_append,
      (stepEntity_links opts st be).2, foldl_alUpdate_lookup Prod.snd Prod.fst]

/-- A last-write fold with no matching entry returns its accumulator. -/
theorem foldl_lastWrite_nomatch {γ κ ω : Type} [DecidableEq κ] (f : γ → κ) (g : γ → ω)
    (ps : List γ) (k : κ) (h : ∀ p ∈ ps, ¬ f p = k) (a0 : Option ω) :
    ps.foldl (fun acc p => if f p = k then some (g p) else acc) a0 = a0 := by
  induction ps generalizing a0 with
  | nil => rfl
  | cons p ps ih =>
    rw [List.foldl_cons, if_neg (h p (List.mem_cons_self _ _))]
    exact ih (fun q hq => h q (List.mem_cons_of_mem _ hq)) a0

/-- A last-write fold over events whose matching entries all carry the same
value yields that value as soon as one entry matches. -/
theorem foldl_lastWrite_const {γ κ ω : Type} [DecidableEq κ] (f : γ → κ) (g : γ → ω)
    (ps : List γ) (k : κ) (v : ω)
    (h1 : ∀ p ∈ ps, f p = k → g p = v) (h2 : ∃ p ∈ ps, f p = k) (a0 : Option ω) :
    ps.foldl (fun acc p => if f p = k then some (g p) else acc) a0 = some v := by
  induction ps generalizing a0 with
  | nil => simp at h2
  | cons p ps ih =>
    by_cases h : f p = k
    · by_cases hex : ∃ q ∈ ps, f q = k
      · rw [List.foldl_cons]
        exact ih (fun q hq => h1 q (List.mem_cons_of_mem _ hq)) hex _
      · have hno : ∀ q ∈ ps, ¬ f q = k := fun q hq hqk => hex ⟨q, hq, hqk⟩
        rw [List.foldl_cons, if_pos h, foldl_lastWrite_nomatch f g ps k hno,
          h1 p (List.mem_cons_self _ _) h]
    · rw [List.foldl_cons, if_neg h]
      refine ih (fun q hq => h1 q (List.mem_cons_of_mem _ hq)) ?_ _
      obtain ⟨q, hq, hqk⟩ := h2
      rcases List.mem_cons.mp hq with rfl | hq2
      · exact absurd hqk h
      · exact ⟨q, hq2, hqk⟩

theorem foldl_lastWrite_mem_aux {γ κ ω : Type} [DecidableEq κ] (f : γ → κ) (g : γ → ω)
    (ps : List γ) (k : κ) (v : ω) (a0 : Option ω)
    (h : ps.foldl (fun acc p => if f p = k then some (g p) else acc) a0 = some v) :
    (∃ p ∈ ps, f p = k ∧ g p = v) ∨ a0 = some v := by
  induction ps generalizing a0 with
  | nil => exact Or.inr h
  | cons p ps ih =>
    rw [List.foldl_cons] at h
    rcases ih _ h with h1 | h1
    · obtain ⟨q, hq, hqk⟩ := h1
      exact Or.inl ⟨q, List.mem_cons_of_mem _ hq, hqk⟩
    · by_cases hfp : f p = k
      · rw [if_pos hfp] at h1
        exact Or.inl ⟨p, List.mem_cons_self _ _, hfp, Option.some_inj.mp h1⟩
      · rw [if_neg hfp] at h1
        exact Or.inr h1

/-- A last-write fold result is always one of the written values. -/
theorem foldl_lastWrite_mem {γ κ ω : Type} [DecidableEq κ] (f : γ → κ) (g : γ → ω)
    (ps : List γ) (k : κ) (v : ω)
    (h : ps.foldl (fun acc p => if f p = k then some (g p) else acc) none = some v) :
    ∃ p ∈ ps, f p = k ∧ g p = v := by
  rcases foldl_lastWrite_mem_aux f g ps k v none h with h1 | h1
  · exact h1
  · simp at h1

theorem tripVehicleLink_eq_some (st : RTState) (k : TripID) (vid : VehicleID) :
    tripVehicleLink st k = some vid ↔
      alLookup st.tripIDToVehicleID k = some vid ∧ (alLookup st.vehiclesByID vid).isSome := by
  rw [tripVehicleLink]
  rcases h : alLookup st.tripIDToVehicleID k with _ | vid2
  · simp
  · by_cases h2 : (alLookup st.vehiclesByID vid2).isSome
    · simp only [h2, if_true]
      constructor
      · intro he
        obtain rfl := Option.some_inj.mp he
        exact ⟨rfl, h2⟩
      · intro he
        exact he.1
    · simp only [h2, if_false, Bool.false_eq_true]
      constructor
      · intro he
        simp at he
      · intro he
        obtain rfl := Option.some_inj.mp he.1
        exact absurd he.2 h2

theorem vehicleTripLink_eq_some (st : RTState) (vid : VehicleID) (k : TripID) :
    vehicleTripLink st vid = some k ↔
      alLookup st.vehicleIDToTripID vid = some k ∧ (alLookup st.tripsById k).isSome := by
  rw [vehicleTripLink]
  rcases h : alLookup st.vehicleIDToTripID vid with _ | k2
  · simp
  · by_cases h2 : (alLookup st.tripsById k2).isSome
    · simp only [h2, if_true]
      constructor
      · intro he
        obtain rfl := Option.some_inj.mp he
        exact ⟨rfl, h2⟩
      · intro he
        exact he.1
    · simp only [h2, if_false, Bool.false_eq_true]
      constructor
      · intro he
        simp at he
      · intro he
        obtain rfl := Option.some_inj.mp he.1
        exact absurd he.2 h2

/-- Test fixture: a vehicle-position entity carrying a trip ID and a vehicle
ID. -/
def vpEntity (tid vid : GoStr) : FeedEntity :=
  ⟨none, none,
    some ⟨some ⟨some tid, none, none, none, none, none⟩,
      some ⟨some vid, none, none⟩, none, none, none, none, none, none, none, none⟩,
    none⟩

/-- Test fixture: the TripID a bare trip ID string decodes to. -/
def tidOf (s : GoStr) : TripID :=
  { ID := s, RouteID := [], DirectionID := DirectionID_Unspecified, HasStartTime := false,
    StartTime := 0, HasStartDate := false, StartDate := goZeroTimeUnix,
    ScheduleRelationship := 0 }

/-- Counterexample to C2 as stated: in a message whose two entities associate
the same VehicleID with two different TripIDs, the emitted trip `a` has a
non-nil Vehicle pointer to the vehicle, but that vehicle points back at
trip `b`, not at trip `a` (and trip `a` does not have both pointers nil
either); so the claimed invariant fails on conflicting messages. -/
theorem C2_counterexample :
    ((processEntities ⟨fun _ _ _ => 0⟩ none
        [(false, vpEntity [97] [118]), (false, vpEntity [98] [118])]).Trips.map
        fun t => (t.toTrip.ID, t.Vehicle)) =
      [(tidOf [97], some ⟨[118], [], []⟩), (tidOf [98], some ⟨[118], [], []⟩)] ∧
    ((processEntities ⟨fun _ _ _ => 0⟩ none
        [(false, vpEntity [97] [118]), (false, vpEntity [98] [118])]).Vehicles.map
        fun v => (v.toVehicle.ID, v.Trip)) =
      [(some ⟨[118], [], []⟩, some (tidOf [98]))] ∧
    tidOf [97] ≠ tidOf [98] := by
  refine ⟨by decide, by decide, by decide⟩

/-- C2 (amended): in the result graph, provided no two entities of the message
associate the same VehicleID with two different TripIDs or the same TripID
with two different VehicleIDs (the pending-link association is functional
in both directions), every Trip with a non-nil Vehicle pointer is pointed
back at by that vehicle (and by every emitted vehicle carrying that
VehicleID), and every Vehicle with a non-nil Trip pointer points at an
emitted Trip whose Vehicle pointer references it back; trips and vehicles
without such associations keep both pointers nil by construction of the
finalize pass. -/
theorem C2_cross_links_amended (opts : ParseRealtimeOptions) (createdAt : Option Int)
    (l : List (Bool × FeedEntity))
    (hfun : ∀ p ∈ allLinks opts l, ∀ q ∈ allLinks opts l, p.1 = q.1 ↔ p.2 = q.2) :
    (∀ t ∈ (processEntities opts createdAt l).Trips, ∀ vid, t.Vehicle = some vid →
      (∃ v ∈ (processEntities opts createdAt l).Vehicles,
        v.toVehicle.ID = some vid ∧ v.Trip = some t.toTrip.ID) ∧
      ∀ v ∈ (processEntities opts createdAt l).Vehicles, v.toVehicle.ID = some vid →
        v.Trip = some t.toTrip.ID) ∧
    (∀ v ∈ (processEntities opts createdAt l).Vehicles, ∀ tid, v.Trip = some tid →
      (∃ t ∈ (processEntities opts createdAt l).Trips, t.toTrip.ID = tid) ∧
      ∀ t ∈ (processEntities opts createdAt l).Trips, t.toTrip.ID = tid →
        t.Vehicle = v.toVehicle.ID) := by
  set st := runEntities opts l with hstdef
  have hTmem : ∀ t : TripOut, t ∈ (processEntities opts createdAt l).Trips ↔
      t ∈ st.tripsById.map fun kv => (⟨kv.2, tripVehicleLink st kv.1⟩ : TripOut) :=
    fun t => (sortTrips_perm _).mem_iff
  have hVeh : (processEntities opts createdAt l).Vehicles =
      (st.vehiclesByID.map fun kv => (⟨kv.2, vehicleTripLink st kv.1⟩ : VehicleOut)) ++
        st.vehiclesWithNoID.map (⟨·, none⟩) := rfl
  have htinv := runEntities_tripsById_inv opts l
  have hvinv := runEntities_vehiclesByID_inv opts l
  have hnoid := runEntities_vehiclesWithNoID_inv opts l
  constructor
  · intro t ht vid hlink
    obtain ⟨kv, hkv, rfl⟩ := List.mem_map.mp (hTmem t |>.mp ht)
    have hkid : (kv.2 : Trip).ID = kv.1 := htinv.2 kv hkv
    obtain ⟨hlk, hsome⟩ := (tripVehicleLink_eq_some st kv.1 vid).mp hlink
    obtain ⟨p, hp, hp1, hp2⟩ := foldl_lastWrite_mem Prod.fst Prod.snd (allLinks opts l)
      kv.1 vid (by rw [← runEntities_tripIDToVehicleID_lookup]; exact hlk)
    have hback : alLookup st.vehicleIDToTripID vid = some kv.1 := by
      rw [hstdef, runEntities_vehicleIDToTripID_lookup]
      refine foldl_lastWrite_const Prod.snd Prod.fst _ vid kv.1 ?_ ⟨p, hp, hp2⟩ none
      intro q hq hq2
      exact (hfun q hq p hp).mpr (hq2.trans hp2.symm) |>.trans hp1
    have hts : (alLookup st.tripsById kv.1).isSome := by
      rw [alLookup_isSome_iff]
      exact List.mem_map_of_mem Prod.fst hkv
    have hvlink : vehicleTripLink st vid = some kv.1 :=
      (vehicleTripLink_eq_some st vid kv.1).mpr ⟨hback, hts⟩
    obtain ⟨vc, hvc⟩ := Option.isSome_iff_exists.mp hsome
    have hvcmem : (vid, vc) ∈ st.vehiclesByID := alLookup_mem _ _ _ hvc
    have hvcid : vc.ID = some vid := hvinv.2 (vid, vc) hvcmem
    constructor
    · refine ⟨⟨vc, vehicleTripLink st vid⟩, ?_, hvcid, ?_⟩
      · rw [hVeh]
        exact List.mem_append_left _ (List.mem_map_of_mem _ hvcmem)
      · show vehicleTripLink st vid = some (kv.2 : Trip).ID
        rw [hvlink, hkid]
    · intro v hv hvid
      rw [hVeh] at hv
      rcases List.mem_append.mp hv with h1 | h1
      · obtain ⟨kw, hkw, rfl⟩ := List.mem_map.mp h1
        have hkwid : (kw.2 : Vehicle).ID = some kw.1 := hvinv.2 kw hkw
        have : kw.1 = vid := by
          have := hkwid.symm.trans hvid
          exact Option.some_inj.mp this
        show vehicleTripLink st kw.1 = some (kv.2 : Trip).ID
        rw [this, hvlink, hkid]
      · obtain ⟨w, hw, rfl⟩ := List.mem_map.mp h1
        have := hnoid w hw
        simp only [VehicleOut.toVehicle] at hvid
        rw [this] at hvid
        simp at hvid
  · intro v hv tid hlink
    rw [hVeh] at hv
    rcases List.mem_append.mp hv with h1 | h1
    · obtain ⟨kv, hkv, rfl⟩ := List.mem_map.mp h1
      have hkid : (kv.2 : Vehicle).ID = some kv.1 := hvinv.2 kv hkv
      have hlink2 : vehicleTripLink st kv.1 = some tid := hlink
      obtain ⟨hlk, htsome⟩ := (vehicleTripLink_eq_some st kv.1 tid).mp hlink2
      obtain ⟨p, hp, hp1, hp2⟩ := foldl_lastWrite_mem Prod.snd Prod.fst (allLinks opts l)
        kv.1 tid (by rw [← runEntities_vehicleIDToTripID_lookup]; exact hlk)
      have hforward : alLookup st.tripIDToVehicleID tid = some kv.1 := by
        rw [hstdef, runEntities_tripIDToVehicleID_lookup]
        refine foldl_lastWrite_const Prod.fst Prod.snd _ tid kv.1 ?_ ⟨p, hp, hp2⟩ none
        intro q hq hq2
        exact (hfun q hq p hp).mp (hq2.trans hp2.symm) |>.trans hp1
      have hvs : (alLookup st.vehiclesByID kv.1).isSome := by
        rw [alLookup_isSome_iff]
        exact List.mem_map_of_mem Prod.fst hkv
      have htlink : tripVehicleLink st tid = some kv.1 :=
        (tripVehicleLink_eq_some st tid kv.1).mpr ⟨hforward, hvs⟩
      obtain ⟨tc, htc⟩ := Option.isSome_iff_exists.mp htsome
      have htcmem : (tid, tc) ∈ st.tripsById := alLookup_mem _ _ _ htc
      have htcid : tc.ID = tid := htinv.2 (tid, tc) htcmem
      constructor
      · refine ⟨⟨tc, tripVehicleLink st tid⟩, ?_, htcid⟩
        rw [hTmem]
        exact List.mem_map_of_mem _ htcmem
      · intro t ht htid
        obtain ⟨kw, hkw, rfl⟩ := List.mem_map.mp (hTmem t |>.mp ht)
        have hkwid : (kw.2 : Trip).ID = kw.1 := htinv.2 kw hkw
        have hkw1 : kw.1 = tid := hkwid.symm.trans htid
        show tripVehicleLink st kw.1 = (⟨kv.2, vehicleTripLink st kv.1⟩ : VehicleOut).toVehicle.ID
        rw [hkw1, htlink, show (⟨kv.2, vehicleTripLink st kv.1⟩ :
          VehicleOut).toVehicle.ID = (kv.2 : Vehicle).ID from rfl, hkid]
    · obtain ⟨w, hw, rfl⟩ := List.mem_map.mp h1
      have : (⟨w, none⟩ : VehicleOut).Trip = none := rfl
      rw [this] at hlink
      simp at hlink

/-- Witness for the amended C2 at a concrete conflict-free message. -/
theorem C2_cross_links_amended_witness :
    (∀ t ∈ (processEntities ⟨fun _ _ _ => 0⟩ none [(false, vpEntity [97] [118])]).Trips,
      ∀ vid, t.Vehicle = some vid →
      (∃ v ∈ (processEntities ⟨fun _ _ _ => 0⟩ none [(false, vpEntity [97] [118])]).Vehicles,
        v.toVehicle.ID = some vid ∧ v.Trip = some t.toTrip.ID) ∧
      ∀ v ∈ (processEntities ⟨fun _ _ _ => 0⟩ none [(false, vpEntity [97] [118])]).Vehicles,
        v.toVehicle.ID = some vid → v.Trip = some t.toTrip.ID) ∧
    (∀ v ∈ (processEntities ⟨fun _ _ _ => 0⟩ none [(false, vpEntity [97] [118])]).Vehicles,
      ∀ tid, v.Trip = some tid →
      (∃ t ∈ (processEntities ⟨fun _ _ _ => 0⟩ none [(false, vpEntity [97] [118])]).Trips,
        t.toTrip.ID = tid) ∧
      ∀ t ∈ (processEntities ⟨fun _ _ _ => 0⟩ none [(false, vpEntity [97] [118])]).Trips,
        t.toTrip.ID = tid → t.Vehicle = v.toVehicle.ID) :=
  C2_cross_links_amended ⟨fun _ _ _ => 0⟩ none [(false, vpEntity [97] [118])] (by decide)

/-- C5 (code behavior at the failing input): a single vehicle-position entity
with a trip descriptor and no vehicle identity decodes to both a Trip and
an unidentified Vehicle, yet the emitted Trip has a nil Vehicle pointer
(and the emitted vehicle a nil Trip pointer): the assignment
`trip.Vehicle = vehicle` in the Go source mutates a local decoded value
that was already copied into the trip map, so the direct link never
reaches the returned result, contradicting the claim. -/
theorem C5_unidentified_vehicle_link_dropped :
    ((entityTrips ⟨fun _ _ _ => 0⟩ (false, ⟨none, none,
        some ⟨some ⟨some [116], none, none, none, none, none⟩, none, none, none, none, none,
          none, none, none, none⟩, none⟩)).map (·.ID)) = [tidOf [116]] ∧
    ((entityVehicles ⟨fun _ _ _ => 0⟩ (false, ⟨none, none,
        some ⟨some ⟨some [116], none, none, none, none, none⟩, none, none, none, none, none,
          none, none, none, none⟩, none⟩)).map (·.ID)) = [none] ∧
    ((processEntities ⟨fun _ _ _ => 0⟩ none [(false, ⟨none, none,
        some ⟨some ⟨some [116], none, none, none, none, none⟩, none, none, none, none, none,
          none, none, none, none⟩, none⟩)]).Trips.map
        fun t => (t.toTrip.ID, t.Vehicle)) = [(tidOf [116], none)] ∧
    ((processEntities ⟨fun _ _ _ => 0⟩ none [(false, ⟨none, none,
        some ⟨some ⟨some [116], none, none, none, none, none⟩, none, none, none, none, none,
          none, none, none, none⟩, none⟩)]).Vehicles.map
        fun v => (v.toVehicle.ID, v.Trip)) = [(none, none)] := by
  refine ⟨by decide, by decide, by decide, by decide⟩

/-- Well-formedness of decoded trip IDs: when a start flag is unset the parser
always leaves the corresponding canonical zero value (`parseStartTime` and
`parseStartDate` return the pairs (false, 0) and (false, zero time)). -/
def WFTripID (t : TripID) : Prop :=
  (t.HasStartTime = false → t.StartTime = 0) ∧
    (t.HasStartDate = false → t.StartDate = goZeroTimeUnix)

instance (t : TripID) : Decidable (WFTripID t) := by
  unfold WFTripID; infer_instance

theorem parseStartTime_false (s : Option GoStr) (h : (parseStartTime s).1 = false) :
    (parseStartTime s).2 = 0 := by
  rcases s with _ | str
  · rfl
  · rcases hm : matchStartTimeRegex str with _ | g
    · simp [parseStartTime, hm]
    · simp [parseStartTime, hm] at h

theorem parseStartDate_false (s : Option GoStr) (opts : ParseRealtimeOptions)
    (h : (parseStartDate s opts).1 = false) : (parseStartDate s opts).2 = goZeroTimeUnix := by
  rcases s with _ | str
  · rfl
  · rcases hm : matchStartDateRegex str with _ | g
    · simp [parseStartDate, hm]
    · simp [parseStartDate, hm] at h

theorem WF_parseTripDescriptor (td : TripDescriptor) (opts : ParseRealtimeOptions) :
    WFTripID (parseTripDescriptor td opts) := by
  constructor
  · exact fun h => parseStartTime_false td.StartTime h
  · exact fun h => parseStartDate_false td.StartDate opts h

theorem WF_zeroTripID : WFTripID zeroTripID := by
  constructor <;> intro h <;> rfl

theorem alertStep_trips (opts : ParseRealtimeOptions) (st : AlertParseState)
    (e : EntitySelector) :
    (alertStep opts st e).trips = st.trips ∨
      (alertStep opts st e).trips = st.trips ++
        [{ ID := (parseOptionalTripDescriptor e.Trip opts).getD zeroTripID,
           StopTimeUpdates := [], IsEntityInMessage := false }] := by
  rw [alertStep]
  rcases htd : parseOptionalTripDescriptor e.Trip opts with _ | tid <;>
    rcases hrid : e.RouteId with _ | r <;>
    simp only [htd, hrid] <;>
    split_ifs <;>
    simp

theorem parseAlert_trips_WF (i : GoStr) (al : FeedAlert) (opts : ParseRealtimeOptions) :
    ∀ t ∈ (parseAlert i al opts).2, WFTripID t.ID := by
  suffices h : ∀ (sel : List EntitySelector) (st : AlertParseState),
      (∀ t ∈ st.trips, WFTripID t.ID) →
      ∀ t ∈ (sel.foldl (alertStep opts) st).trips, WFTripID t.ID by
    intro t ht
    exact h al.InformedEntity ⟨[], [], [], []⟩ (by simp) t ht
  intro sel
  induction sel with
  | nil => exact fun st h => h
  | cons e sel ih =>
    intro st h1
    rw [List.foldl_cons]
    refine ih _ ?_
    intro t ht
    rcases alertStep_trips opts st e with he | he
    · exact h1 t (he ▸ ht)
    · rw [he] at ht
      rcases List.mem_append.mp ht with h2 | h2
      · exact h1 t h2
      · have h3 := List.mem_singleton.mp h2
        rw [h3]
        rcases htd : parseOptionalTripDescriptor e.Trip opts with _ | tid
        · simpa [htd] using WF_zeroTripID
        · rcases hetrip : e.Trip with _ | td
          · rw [parseOptionalTripDescriptor, hetrip] at htd
            simp at htd
          · rw [parseOptionalTripDescriptor, hetrip] at htd
            have h4 : tid = parseTripDescriptor td opts := by simpa using htd.symm
            simpa [htd, h4] using WF_parseTripDescriptor td opts

theorem entityTrips_WF (opts : ParseRealtimeOptions) (be : Bool × FeedEntity) :
    ∀ t ∈ entityTrips opts be, WFTripID t.ID := by
  rcases be with ⟨b, e⟩
  cases b
  case true => simp [entityTrips]
  case false =>
    rcases htu : e.TripUpdate with _ | tu
    · rcases hvp : e.Vehicle with _ | vp
      · rcases hal : e.Alert with _ | al
        · simp [entityTrips, htu, hvp, hal]
        · intro t ht
          refine parseAlert_trips_WF (e.Id.getD []) al opts t ?_
          simpa [entityTrips, htu, hvp, hal] using ht
      · rcases hpv : parseVehicle vp opts with ⟨tr, v⟩
        rcases tr with _ | tr
        · simp [entityTrips, htu, hvp, hpv]
        · intro t ht
          have ht2 : t = tr := by simpa [entityTrips, htu, hvp, hpv] using ht
          rcases hvt : vp.Trip with _ | td
          · rw [parseVehicle, hvt] at hpv
            simp at hpv
          · rw [parseVehicle, hvt] at hpv
            simp only [Prod.mk.injEq] at hpv
            obtain ⟨h1, h2⟩ := hpv
            have : tr.ID = parseTripDescriptor td opts := by
              rw [← Option.some_inj.mp h1]
            rw [ht2, this]
            exact WF_parseTripDescriptor td opts
    · rcases hp : parseTripUpdate tu opts with _ | tv
      · simp [entityTrips, htu, hp]
      · rcases tv with ⟨tr, v⟩
        intro t ht
        have ht2 : t = tr := by simpa [entityTrips, htu, hp] using ht
        rcases htd : tu.Trip with _ | td
        · rw [parseTripUpdate, htd] at hp
          simp at hp
        · rw [parseTripUpdate, htd] at hp
          rcases htv : tu.Vehicle with _ | vd <;> rw [htv] at hp <;>
            simp only [Option.some_inj, Prod.mk.injEq] at hp
          · have : tr.ID = parseTripDescriptor td opts := by rw [← hp.1]
            rw [ht2, this]
            exact WF_parseTripDescriptor td opts
          · have : tr.ID = parseTripDescriptor td opts := by rw [← hp.1]
            rw [ht2, this]
            exact WF_parseTripDescriptor td opts

/-- Every key of the trip map is a well-formed decoded trip ID. -/
theorem runEntities_keys_WF (opts : ParseRealtimeOptions) (l : List (Bool × FeedEntity)) :
    ∀ k ∈ alKeys (runEntities opts l).tripsById, WFTripID k := by
  suffices h : ∀ st : RTState, (∀ k ∈ alKeys st.tripsById, WFTripID k) →
      ∀ k ∈ alKeys (l.foldl (stepEntity opts) st).tripsById, WFTripID k by
    exact h RTState.empty (by simp [RTState.empty, alKeys])
  have hstep : ∀ (m : List (TripID × Trip)) (ts : List Trip),
      (∀ k ∈ alKeys m, WFTripID k) → (∀ t ∈ ts, WFTripID t.ID) →
      ∀ k ∈ alKeys (ts.foldl updTripsById m), WFTripID k := by
    intro m ts
    induction ts generalizing m with
    | nil => exact fun h _ => h
    | cons t ts ih =>
      intro h1 h2
      rw [List.foldl_cons]
      refine ih _ ?_ fun u hu => h2 u (List.mem_cons_of_mem _ hu)
      intro k hk
      rw [updTripsById, alKeys_update] at hk
      by_cases hm : t.ID ∈ alKeys m
      · exact h1 k (by simpa [hm] using hk)
      · rcases (by simpa [hm] using hk : k ∈ alKeys m ∨ k = t.ID) with h3 | h3
        · exact h1 k h3
        · rw [h3]
          exact h2 t (List.mem_cons_self _ _)
  induction l with
  | nil => exact fun st h => h
  | cons be l ih =>
    intro st h1
    rw [List.foldl_cons]
    refine ih _ ?_
    intro k hk
    rw [stepEntity_tripsById] at hk
    exact hstep _ _ h1 (entityTrips_WF opts be) k hk

theorem goStrLt_iff_lt (a b : GoStr) : goStrLt a b = true ↔ a < b := by
  induction a generalizing b with
  | nil =>
    rcases b with _ | ⟨y, ys⟩
    · constructor
      · intro h
        simp [goStrLt] at h
      · intro h
        exact absurd h (lt_irrefl _)
    · constructor
      · intro _
        exact List.Lex.nil
      · intro _
        rfl
  | cons x xs ih =>
    rcases b with _ | ⟨y, ys⟩
    · constructor
      · intro h
        simp [goStrLt] at h
      · intro h
        exact absurd h (by exact List.Lex.not_nil_right _ _)
    · have hlex : ((x :: xs : GoStr) < (y :: ys)) ↔ (x < y ∨ (x = y ∧ xs < ys)) := by
        constructor
        · intro h
          have h2 : List.Lex (· < ·) (x :: xs) (y :: ys) := h
          cases h2 with
          | cons h3 => exact Or.inr ⟨rfl, h3⟩
          | rel h3 => exact Or.inl h3
        · intro h
          rcases h with h | ⟨rfl, h⟩
          · exact List.Lex.rel h
          · exact List.Lex.cons h
      rw [hlex]
      by_cases hxy : x < y
      · simp [goStrLt, hxy]
      · by_cases hyx : y < x
        · have hne : ¬ x = y := fun he => absurd (he ▸ hyx) (lt_irrefl _)
          have hnall : ¬ (x < y ∨ (x = y ∧ xs < ys)) := by
            rintro (h | ⟨he, _⟩)
            · exact hxy h
            · exact hne he
          constructor
          · intro h
            simp [goStrLt, hxy, hyx] at h
          · intro h
            exact absurd h hnall
        · have hxe : x = y := Nat.le_antisymm (Nat.le_of_not_lt hyx) (Nat.le_of_not_lt hxy)
          simp [goStrLt, hxy, hyx, hxe, ih ys]

theorem DirectionID.toNat_inj (d1 d2 : DirectionID) : d1.toNat = d2.toNat ↔ d1 = d2 := by
  cases d1 <;> cases d2 <;> simp [DirectionID.toNat]

/-- The lexicographic key underlying `TripID.Less`. -/
def tripKey (t : TripID) :
    Lex (GoStr × Lex (GoStr × Lex (Nat × Lex (Bool ×
      Lex (Int × Lex (Bool × Lex (Int × Int))))))) :=
  toLex (t.ID, toLex (t.RouteID, toLex (t.DirectionID.toNat, toLex (t.HasStartTime,
    toLex (t.StartTime, toLex (t.HasStartDate, toLex (t.StartDate, t.ScheduleRelationship)))))))

/-- On well-formed trip IDs, `TripID.Less` is exactly the lexicographic strict
order on the key tuple (ID, RouteID, DirectionID, HasStartTime, StartTime,
HasStartDate, StartDate, ScheduleRelationship), with unset flags sorting
first. -/
theorem less_iff_key_lt (t1 t2 : TripID) (w1 : WFTripID t1) (w2 : WFTripID t2) :
    TripID.Less t1 t2 = true ↔ tripKey t1 < tripKey t2 := by
  rw [TripID.Less]
  simp only [tripKey, Prod.Lex.lt_iff]
  by_cases e1 : t1.ID = t2.ID
  case neg =>
    rw [if_pos e1]
    simp [goStrLt_iff_lt, e1]
  case pos =>
    rw [if_neg (not_not_intro e1)]
    simp only [e1, lt_self_iff_false, false_or, true_and]
    by_cases e2 : t1.RouteID = t2.RouteID
    case neg =>
      rw [if_pos e2]
      simp [goStrLt_iff_lt, e2]
    case pos =>
      rw [if_neg (not_not_intro e2)]
      simp only [e2, lt_self_iff_false, false_or, true_and]
      by_cases e3 : t1.DirectionID = t2.DirectionID
      case neg =>
        rw [if_pos e3]
        have : ¬ t1.DirectionID.toNat = t2.DirectionID.toNat := by
          rw [DirectionID.toNat_inj]
          exact e3
        simp [this]
      case pos =>
        rw [if_neg (not_not_intro e3)]
        simp only [e3, lt_self_iff_false, false_or, true_and]
        by_cases e4 : t1.HasStartTime = t2.HasStartTime
        case neg =>
          rw [if_pos e4]
          rcases h1 : t1.HasStartTime with _ | _ <;> rcases h2 : t2.HasStartTime with _ | _ <;>
            simp [h1, h2, Bool.lt_iff] at e4 ⊢
        case pos =>
          rw [if_neg (not_not_intro e4)]
          simp only [e4, lt_self_iff_false, false_or, true_and]
          by_cases e5 : t1.StartTime = t2.StartTime
          case pos =>
            rw [if_neg (by rintro ⟨_, h⟩; exact h e5)]
            simp only [e5, lt_self_iff_false, false_or, true_and]
            by_cases e6 : t1.HasStartDate = t2.HasStartDate
            case neg =>
              rw [if_pos e6]
              rcases h1 : t1.HasStartDate with _ | _ <;>
                rcases h2 : t2.HasStartDate with _ | _ <;>
                simp [h1, h2, Bool.lt_iff] at e4 e6 ⊢
            case pos =>
              rw [if_neg (not_not_intro e6)]
              simp only [e6, lt_self_iff_false, false_or, true_and]
              by_cases e7 : t1.StartDate = t2.StartDate
              case pos =>
                rw [if_neg (by rintro ⟨_, h⟩; exact h e7)]
                simp [e7]
              case neg =>
                rcases h1 : t1.HasStartDate with _ | _
                · exfalso
                  have ha := w1.2 h1
                  have hb := w2.2 (e6 ▸ h1)
                  exact e7 (ha.trans hb.symm)
                · rw [if_pos ⟨e6 ▸ h1, e7⟩]
                  simp [e7]
          case neg =>
            rcases h1 : t1.HasStartTime with _ | _
            · exfalso
              have ha := w1.1 h1
              have hb := w2.1 (e4 ▸ h1)
              exact e5 (ha.trans hb.symm)
            · rw [if_pos ⟨e4 ▸ h1, e5⟩]
              simp [e5]

theorem tripKey_inj (t1 t2 : TripID) (h : tripKey t1 = tripKey t2) : t1 = t2 := by
  simp only [tripKey, toLex_inj, Prod.mk.injEq] at h
  obtain ⟨h1, h2, h3, h4, h5, h6, h7, h8⟩ := h
  have h3d : t1.DirectionID = t2.DirectionID := (DirectionID.toNat_inj _ _).mp h3
  cases t1
  cases t2
  simp_all

/-- The non-strict key order on emitted trips. -/
def keyLE (a b : TripOut) : Prop := tripKey a.toTrip.ID ≤ tripKey b.toTrip.ID

theorem sortTripsInsert_sorted (t : TripOut) (l : List TripOut)
    (hWFt : WFTripID t.toTrip.ID) (hWFl : ∀ x ∈ l, WFTripID x.toTrip.ID)
    (hs : l.Pairwise keyLE) : (sortTripsInsert t l).Pairwise keyLE := by
  induction l with
  | nil => simp [sortTripsInsert]
  | cons u rest ih =>
    have hWFu : WFTripID u.toTrip.ID := hWFl u (List.mem_cons_self _ _)
    have hWFrest : ∀ x ∈ rest, WFTripID x.toTrip.ID :=
      fun x hx => hWFl x (List.mem_cons_of_mem _ hx)
    obtain ⟨hu, hrest⟩ := List.pairwise_cons.mp hs
    by_cases h : TripID.Less u.toTrip.ID t.toTrip.ID = true
    · rw [sortTripsInsert, if_pos h, List.pairwise_cons]
      constructor
      · intro x hx
        have hx2 : x ∈ t :: rest := (sortTripsInsert_perm t rest).mem_iff.mp hx
        rcases List.mem_cons.mp hx2 with rfl | hx3
        · exact le_of_lt ((less_iff_key_lt _ _ hWFu hWFt).mp h)
        · exact hu x hx3
      · exact ih hWFrest hrest
    · rw [sortTripsInsert, if_neg h, List.pairwise_cons]
      have hle : keyLE t u :=
        le_of_not_lt fun hc => h ((less_iff_key_lt _ _ hWFu hWFt).mpr hc)
      constructor
      · intro x hx
        rcases List.mem_cons.mp hx with rfl | hx3
        · exact hle
        · exact le_trans hle (hu x hx3)
      · exact hs

theorem sortTrips_sorted (l : List TripOut) (hWF : ∀ x ∈ l, WFTripID x.toTrip.ID) :
    (sortTrips l).Pairwise keyLE := by
  induction l with
  | nil => simp [sortTrips]
  | cons t rest ih =>
    have hWFt : WFTripID t.toTrip.ID := hWF t (List.mem_cons_self _ _)
    have hWFrest : ∀ x ∈ rest, WFTripID x.toTrip.ID :=
      fun x hx => hWF x (List.mem_cons_of_mem _ hx)
    have hWFsorted : ∀ x ∈ sortTrips rest, WFTripID x.toTrip.ID :=
      fun x hx => hWFrest x ((sortTrips_perm rest).mem_iff.mp hx)
    exact sortTripsInsert_sorted t (sortTrips rest) hWFt hWFsorted (ih hWFrest)

/-- C8: `TripID.Less` is irreflexive, asymmetric and (on the well-formed trip
IDs the decoders produce) total, ordering lexicographically by ID, RouteID,
DirectionID, (HasStartTime, StartTime) with unset first, (HasStartDate,
StartDate) likewise, then ScheduleRelationship; and the Trips sequence of
every result is strictly increasing in this order, so it is uniquely
determined by the set of emitted trips and identical across runs on the
same input (the model is a pure function). -/
theorem C8_trips_sorted_total_order :
    (∀ t : TripID, TripID.Less t t = false) ∧
    (∀ t1 t2 : TripID, WFTripID t1 → WFTripID t2 → TripID.Less t1 t2 = true →
      TripID.Less t2 t1 = false) ∧
    (∀ t1 t2 : TripID, WFTripID t1 → WFTripID t2 → t1 ≠ t2 →
      TripID.Less t1 t2 = true ∨ TripID.Less t2 t1 = true) ∧
    (∀ opts createdAt l, (processEntities opts createdAt l).Trips.Pairwise
      fun a b => TripID.Less a.toTrip.ID b.toTrip.ID = true) := by
  refine ⟨?_, ?_, ?_, ?_⟩
  · intro t
    simp [TripID.Less]
  · intro t1 t2 w1 w2 h
    have hlt := (less_iff_key_lt t1 t2 w1 w2).mp h
    have : ¬ TripID.Less t2 t1 = true := fun hc =>
      absurd ((less_iff_key_lt t2 t1 w2 w1).mp hc) (lt_asymm hlt)
    simpa using this
  · intro t1 t2 w1 w2 hne
    have hkne : tripKey t1 ≠ tripKey t2 := fun hc => hne (tripKey_inj _ _ hc)
    rcases lt_or_gt_of_ne hkne with h | h
    · exact Or.inl ((less_iff_key_lt t1 t2 w1 w2).mpr h)
    · exact Or.inr ((less_iff_key_lt t2 t1 w2 w1).mpr h)
  · intro opts createdAt l
    set st := runEntities opts l with hst
    have hinv := runEntities_tripsById_inv opts l
    have hkeysWF := runEntities_keys_WF opts l
    have hWFpre : ∀ x ∈ st.tripsById.map fun kv =>
        (⟨kv.2, tripVehicleLink st kv.1⟩ : TripOut), WFTripID x.toTrip.ID := by
      intro x hx
      obtain ⟨kv, hkv, rfl⟩ := List.mem_map.mp hx
      have : (kv.2 : Trip).ID = kv.1 := hinv.2 kv hkv
      show WFTripID (kv.2 : Trip).ID
      rw [this]
      exact hkeysWF kv.1 (List.mem_map_of_mem Prod.fst hkv)
    have hsorted : ((processEntities opts createdAt l).Trips).Pairwise keyLE :=
      sortTrips_sorted _ hWFpre
    have hWFout : ∀ x ∈ (processEntities opts createdAt l).Trips, WFTripID x.toTrip.ID :=
      fun x hx => hWFpre x ((sortTrips_perm _).mem_iff.mp hx)
    have hpre_ne : (st.tripsById.map fun kv =>
        (⟨kv.2, tripVehicleLink st kv.1⟩ : TripOut)).Pairwise
          fun a b => a.toTrip.ID ≠ b.toTrip.ID := by
      rw [List.pairwise_map]
      have hkeys : st.tripsById.Pairwise fun p q => p.1 ≠ q.1 := by
        have h2 : (List.map Prod.fst st.tripsById).Pairwise (· ≠ ·) := hinv.1
        rwa [List.pairwise_map] at h2
      refine hkeys.imp_of_mem ?_
      intro p q hp hq hne
      show (p.2 : Trip).ID ≠ (q.2 : Trip).ID
      rw [hinv.2 p hp, hinv.2 q hq]
      exact hne
    have hne_out : ((processEntities opts createdAt l).Trips).Pairwise
        fun a b => a.toTrip.ID ≠ b.toTrip.ID := by
      refine ((sortTrips_perm _).pairwise_iff ?_).mpr hpre_ne
      intro a b hab
      exact hab.symm
    have hand := hsorted.and hne_out
    refine hand.imp_of_mem ?_
    intro a b ha hb hab
    have hlt : tripKey a.toTrip.ID < tripKey b.toTrip.ID :=
      lt_of_le_of_ne hab.1 fun hc => hab.2 (tripKey_inj _ _ hc)
    exact (less_iff_key_lt _ _ (hWFout a ha) (hWFout b hb)).mpr hlt

/-- Witness for C8 at concrete trip IDs: asymmetry and totality instantiated
at two concrete decoded trip IDs. -/
theorem C8_trips_sorted_total_order_witness :
    TripID.Less (tidOf [98]) (tidOf [97]) = false ∧
      (TripID.Less (tidOf [97]) (tidOf [98]) = true ∨
        TripID.Less (tidOf [98]) (tidOf [97]) = true) :=
  ⟨C8_trips_sorted_total_order.2.1 (tidOf [97]) (tidOf [98])
      (by decide) (by decide) (by decide),
    C8_trips_sorted_total_order.2.2.1 (tidOf [97]) (tidOf [98])
      (by decide) (by decide) (by decide)⟩

/-! Claim-level specifications of the alert informed-entity rules.  These are
written from the wording of the specification and compared against the
fold the code performs. -/

/-- Modelled from the spec: a TripID uniquely identifies a trip when its ID is
non-empty, or its RouteID is non-empty, its DirectionID is specified and
both the start-date and start-time flags are set. -/
def UniqueTripSpec : Option TripID → Prop
  | none => False
  | some t => t.ID ≠ [] ∨
      (t.RouteID ≠ [] ∧ t.DirectionID ≠ DirectionID_Unspecified ∧
        t.HasStartTime = true ∧ t.HasStartDate = true)

instance (t : Option TripID) : Decidable (UniqueTripSpec t) := by
  rcases t with _ | t
  · exact isFalse fun h => h
  · unfold UniqueTripSpec
    infer_instance

theorem uniqueTripSpec_iff (t : Option TripID) :
    tripIDUniquelyIdentifiesTrip t = true ↔ UniqueTripSpec t := by
  rcases t with _ | t
  · simp [tripIDUniquelyIdentifiesTrip, UniqueTripSpec]
  · simp [tripIDUniquelyIdentifiesTrip, UniqueTripSpec, and_assoc]

/-- Modelled from the spec: an informed entity informs at least one concrete
entity when it names an agency, a route, a specified route type, a trip ID
that uniquely identifies a trip, or a stop. -/
def InformsSpec (ie : AlertInformedEntity) : Prop :=
  ie.AgencyID.isSome = true ∨ ie.RouteID.isSome = true ∨ ie.RouteType ≠ RouteType_Unknown ∨
    UniqueTripSpec ie.TripID ∨ ie.StopID.isSome = true

instance (ie : AlertInformedEntity) : Decidable (InformsSpec ie) := by
  unfold InformsSpec
  infer_instance

theorem informsSpec_iff (ie : AlertInformedEntity) :
    alertInformedEntityInformsAtLeastOneEntity ie = true ↔ InformsSpec ie := by
  simp only [alertInformedEntityInformsAtLeastOneEntity, InformsSpec, Bool.or_eq_true,
    decide_eq_true_eq, uniqueTripSpec_iff]
  tauto

/-- The informed entity an entity selector decodes to (before the keep/clear
decision). -/
def decodedInformedEntity (opts : ParseRealtimeOptions) (e : EntitySelector) :
    AlertInformedEntity :=
  { AgencyID := e.AgencyId
    RouteID := e.RouteId
    RouteType := parseRouteType_GTFSRealtime e.RouteType
    DirectionID := parseDirectionID_GTFSRealtime e.DirectionId
    TripID := parseOptionalTripDescriptor e.Trip opts
    StopID := e.StopId }

/-- Modelled from the spec: the keep/clear rule for one raw informed entity of
an alert.  The entity is kept only if it informs at least one entity;
a present TripID that does not uniquely identify a trip is cleared. -/
def keptInformedEntitySpec (opts : ParseRealtimeOptions) (e : EntitySelector) :
    Option AlertInformedEntity :=
  let ie := decodedInformedEntity opts e
  if InformsSpec ie then
    some (if UniqueTripSpec ie.TripID then ie else { ie with TripID := none })
  else none

/-- The informed entities accumulated by the fold, before the synthesized
route entities are appended. -/
def alertKeptEntities (al : FeedAlert) (opts : ParseRealtimeOptions) :
    List AlertInformedEntity :=
  (al.InformedEntity.foldl (alertStep opts) ⟨[], [], [], []⟩).informedEntities

/-- The synthesized route entities appended after the fold. -/
def alertSynthEntities (al : FeedAlert) (opts : ParseRealtimeOptions) :
    List AlertInformedEntity :=
  synthesizedRouteEntities (al.InformedEntity.foldl (alertStep opts) ⟨[], [], [], []⟩)

theorem parseAlert_informedEntities_split (i : GoStr) (al : FeedAlert)
    (opts : ParseRealtimeOptions) :
    (parseAlert i al opts).1.InformedEntities =
      alertKeptEntities al opts ++ alertSynthEntities al opts := rfl

theorem alertStep_informedEntities (opts : ParseRealtimeOptions) (st : AlertParseState)
    (e : EntitySelector) :
    (alertStep opts st e).informedEntities =
      st.informedEntities ++ (keptInformedEntitySpec opts e).toList := by
  rw [alertStep, keptInformedEntitySpec]
  have hinf := informsSpec_iff (decodedInformedEntity opts e)
  have huniq := uniqueTripSpec_iff (decodedInformedEntity opts e).TripID
  rcases htd : parseOptionalTripDescriptor e.Trip opts with _ | tid <;>
    rcases hrid : e.RouteId with _ | r <;>
    simp only [htd, hrid, decodedInformedEntity] at hinf huniq ⊢ <;>
    split_ifs <;>
    simp_all [tripIDUniquelyIdentifiesTrip]

theorem foldl_alertStep_informedEntities (opts : ParseRealtimeOptions)
    (sel : List EntitySelector) :
    ∀ st0 : AlertParseState, (sel.foldl (alertStep opts) st0).informedEntities =
      st0.informedEntities ++ sel.filterMap (keptInformedEntitySpec opts) := by
  induction sel with
  | nil => intro st0; simp
  | cons e sel ih =>
    intro st0
    rw [List.foldl_cons, ih, alertStep_informedEntities]
    rcases h : keptInformedEntitySpec opts e with _ | ie <;>
      simp [List.filterMap_cons, h]

theorem dirPairToSynth_RouteID (k : GoStr) (p : Bool × Bool) :
    (dirPairToSynth k p).RouteID = some k := by
  rw [dirPairToSynth]
  split_ifs <;> rfl

/-- C3: an informed entity of a raw alert is kept exactly when it informs at
least one of an agency, a route, a specified route type, a trip ID that
uniquely identifies a trip, or a stop, with a present but non-identifying
TripID cleared in the kept entity; entities informing none of these are
dropped; the output list is these kept entities followed by the
synthesized route entities, and every informed entity of the output
informs at least one entity. -/
theorem C3_informed_entity_filter :
    ∀ i al opts,
      ((parseAlert i al opts).1.InformedEntities =
        al.InformedEntity.filterMap (keptInformedEntitySpec opts) ++
          alertSynthEntities al opts) ∧
      ∀ ie ∈ (parseAlert i al opts).1.InformedEntities, InformsSpec ie := by
  intro i al opts
  have hsplit : (parseAlert i al opts).1.InformedEntities =
      alertKeptEntities al opts ++ alertSynthEntities al opts := rfl
  have hkept : alertKeptEntities al opts =
      al.InformedEntity.filterMap (keptInformedEntitySpec opts) := by
    rw [alertKeptEntities, foldl_alertStep_informedEntities]
    rfl
  refine ⟨by rw [hsplit, hkept], ?_⟩
  intro ie hie
  rw [hsplit, hkept] at hie
  rcases List.mem_append.mp hie with h1 | h1
  · obtain ⟨e, he, hke⟩ := List.mem_filterMap.mp h1
    rw [keptInformedEntitySpec] at hke
    by_cases hinf : InformsSpec (decodedInformedEntity opts e)
    · rw [if_pos hinf] at hke
      by_cases huniq : UniqueTripSpec (decodedInformedEntity opts e).TripID
      · rw [if_pos huniq] at hke
        exact Option.some_inj.mp hke ▸ hinf
      · rw [if_neg huniq] at hke
        obtain rfl := Option.some_inj.mp hke
        rcases hinf with h | h | h | h | h
        · exact Or.inl h
        · exact Or.inr (Or.inl h)
        · exact Or.inr (Or.inr (Or.inl h))
        · exact absurd h huniq
        · exact Or.inr (Or.inr (Or.inr (Or.inr h)))
    · rw [if_neg hinf] at hke
      simp at hke
  · rw [alertSynthEntities, synthesizedRouteEntities] at h1
    obtain ⟨kv, _, rfl⟩ := List.mem_map.mp h1
    refine Or.inr (Or.inl ?_)
    rw [dirPairToSynth_RouteID]
    rfl

/-- Witness for C3 at a concrete alert with one route-informing entity. -/
theorem C3_informed_entity_filter_witness :
    InformsSpec
      { AgencyID := none, RouteID := some [82], RouteType := RouteType_Unknown,
        DirectionID := DirectionID_Unspecified, TripID := none, StopID := none } :=
  (C3_informed_entity_filter [65]
      ⟨[], [⟨none, some [82], none, none, none, none⟩], none, none, none, none, none⟩
      ⟨fun _ _ _ => 0⟩).2
    { AgencyID := none, RouteID := some [82], RouteType := RouteType_Unknown,
      DirectionID := DirectionID_Unspecified, TripID := none, StopID := none }
    (by decide)


/-- One direction-accumulation step of the informed-routes-from-trip-IDs map:
an unspecified direction covers both directions at once (overwriting the
entry), a specified direction is added to the collected set. -/
def dirStep (prev : Option (Bool × Bool)) (d : DirectionID) : Bool × Bool :=
  if d = DirectionID_Unspecified then (true, true)
  else setDirFlag (prev.getD (false, false)) d

/-- Modelled from the spec: the direction recorded for route `r` by one
informed entity whose trip descriptor does not uniquely identify a trip but
names the (non-empty) route `r`. -/
def routeDirOcc (opts : ParseRealtimeOptions) (r : GoStr) (e : EntitySelector) :
    Option DirectionID :=
  match parseOptionalTripDescriptor e.Trip opts with
  | some tid =>
    if ¬ UniqueTripSpec (some tid) ∧ tid.RouteID ≠ [] ∧ tid.RouteID = r
    then some tid.DirectionID else none
  | none => none

/-- Modelled from the spec: the direction values collected for route `r`
across the informed entities of an alert, in feed order. -/
def routeDirOccs (opts : ParseRealtimeOptions) (sel : List EntitySelector) (r : GoStr) :
    List DirectionID :=
  sel.filterMap (routeDirOcc opts r)

/-- Modelled from the spec: a route is directly informed by an alert when some
informed entity carries it in its RouteID field. -/
def DirectlyInformed (sel : List EntitySelector) (r : GoStr) : Prop :=
  ∃ e ∈ sel, e.RouteId = some r

instance (sel : List EntitySelector) (r : GoStr) : Decidable (DirectlyInformed sel r) := by
  unfold DirectlyInformed
  infer_instance

/-- Modelled from the spec (amended): the direction of the synthesized route
entity is unspecified when some occurrence was unspecified or both
directions were specified across occurrences, else the single specified
direction. -/
def specSynthDirection (ds : List DirectionID) : DirectionID :=
  if DirectionID_Unspecified ∈ ds ∨ (DirectionID_False ∈ ds ∧ DirectionID_True ∈ ds)
  then DirectionID_Unspecified
  else if DirectionID_False ∈ ds then DirectionID_False
  else DirectionID_True

/-- Modelled from the spec: the synthesized informed entity for a route. -/
def mkSynthSpec (r : GoStr) (d : DirectionID) : AlertInformedEntity :=
  { AgencyID := none, RouteID := some r, RouteType := RouteType_Unknown,
    DirectionID := d, TripID := none, StopID := none }

theorem alertStep_irft (opts : ParseRealtimeOptions) (st : AlertParseState)
    (e : EntitySelector) :
    (alertStep opts st e).informedRoutesFromTripIDs =
      match parseOptionalTripDescriptor e.Trip opts with
      | some tid =>
        if !tripIDUniquelyIdentifiesTrip (some tid) && decide (tid.RouteID ≠ []) then
          alUpdate st.informedRoutesFromTripIDs tid.RouteID
            (dirStep (alLookup st.informedRoutesFromTripIDs tid.RouteID) tid.DirectionID)
        else st.informedRoutesFromTripIDs
      | none => st.informedRoutesFromTripIDs := by
  unfold alertStep
  rcases htd : parseOptionalTripDescriptor e.Trip opts with _ | tid <;>
    simp only [htd] <;> rcases e.RouteId with _ | r2 <;> simp only [dirStep]
  · split_ifs <;> rfl
  · split_ifs <;> rfl
  · split_ifs <;> rfl
  · split_ifs <;> rfl

theorem alertStep_irft_lookup (opts : ParseRealtimeOptions) (st : AlertParseState)
    (e : EntitySelector) (r : GoStr) :
    alLookup (alertStep opts st e).informedRoutesFromTripIDs r =
      match routeDirOcc opts r e with
      | some d => some (dirStep (alLookup st.informedRoutesFromTripIDs r) d)
      | none => alLookup st.informedRoutesFromTripIDs r := by
  rw [alertStep_irft]
  rcases htd : parseOptionalTripDescriptor e.Trip opts with _ | tid <;>
    simp only [routeDirOcc, htd]
  by_cases hq : (!tripIDUniquelyIdentifiesTrip (some tid) &&
      decide (tid.RouteID ≠ [])) = true
  · rw [if_pos hq]
    have hq2 : ¬ UniqueTripSpec (some tid) ∧ tid.RouteID ≠ [] := by
      rcases Bool.and_eq_true_iff.mp hq with ⟨h1, h2⟩
      refine ⟨fun hu => ?_, of_decide_eq_true h2⟩
      rw [(uniqueTripSpec_iff (some tid)).mpr hu] at h1
      exact absurd h1 (by decide)
    by_cases hr : tid.RouteID = r
    · subst hr
      rw [alLookup_update_same, if_pos ⟨hq2.1, hq2.2, rfl⟩]
    · rw [alLookup_update_ne _ _ _ _ (fun he => hr he.symm),
        if_neg (fun hc => hr hc.2.2)]
  · rw [if_neg hq, if_neg ?_]
    intro hc
    exact hq (Bool.and_eq_true_iff.mpr
      ⟨by
        simp only [Bool.not_eq_true', ← Bool.not_eq_true]
        intro hu
        exact hc.1 ((uniqueTripSpec_iff (some tid)).mp hu),
       decide_eq_true hc.2.1⟩)

theorem foldl_irft_lookup (opts : ParseRealtimeOptions) (sel : List EntitySelector)
    (r : GoStr) : ∀ st0 : AlertParseState,
    alLookup ((sel.foldl (alertStep opts) st0).informedRoutesFromTripIDs) r =
      (routeDirOccs opts sel r).foldl (fun acc d => some (dirStep acc d))
        (alLookup st0.informedRoutesFromTripIDs r) := by
  induction sel with
  | nil => intro st0; rfl
  | cons e rest ih =>
    intro st0
    simp only [List.foldl_cons, routeDirOccs, List.filterMap_cons]
    rcases ho : routeDirOcc opts r e with _ | d
    · rw [ih (alertStep opts st0 e), alertStep_irft_lookup, ho]
      rfl
    · rw [ih (alertStep opts st0 e), alertStep_irft_lookup, ho, List.foldl_cons]
      rfl

theorem dirFold_char (ds : List DirectionID) :
    ds.foldl (fun acc d => some (dirStep acc d)) none =
      if ds = [] then none
      else some (decide (DirectionID_False ∈ ds ∨ DirectionID_Unspecified ∈ ds),
                 decide (DirectionID_True ∈ ds ∨ DirectionID_Unspecified ∈ ds)) := by
  induction ds using List.reverseRecOn with
  | nil => rfl
  | append_singleton l d ih =>
    rw [List.foldl_append, List.foldl_cons, List.foldl_nil, ih]
    by_cases hl : l = []
    · subst hl
      rcases d <;> decide
    · have hl2 : l ++ [d] ≠ [] := by simp
      rw [if_neg hl, if_neg hl2]
      rcases d <;>
        simp [dirStep, setDirFlag, List.mem_append, DirectionID_Unspecified,
          DirectionID_True, DirectionID_False]

theorem alertStep_informedRoutes (opts : ParseRealtimeOptions) (st : AlertParseState)
    (e : EntitySelector) :
    (alertStep opts st e).informedRoutes =
      st.informedRoutes ++ (match e.RouteId with | some r2 => [r2] | none => []) := by
  unfold alertStep
  rcases htd : parseOptionalTripDescriptor e.Trip opts with _ | tid <;>
    simp only [htd] <;> rcases hrid : e.RouteId with _ | r2 <;>
    simp only [hrid] <;> split_ifs <;> simp

theorem foldl_informedRoutes (opts : ParseRealtimeOptions) (sel : List EntitySelector) :
    ∀ st0 : AlertParseState,
    (sel.foldl (alertStep opts) st0).informedRoutes =
      st0.informedRoutes ++ sel.filterMap (·.RouteId) := by
  induction sel with
  | nil => intro st0; simp
  | cons e rest ih =>
    intro st0
    rw [List.foldl_cons, ih, alertStep_informedRoutes, List.filterMap_cons]
    rcases e.RouteId <;> simp

theorem foldl_informedRoutes_mem (opts : ParseRealtimeOptions) (sel : List EntitySelector)
    (r : GoStr) :
    r ∈ (sel.foldl (alertStep opts) ⟨[], [], [], []⟩).informedRoutes ↔
      DirectlyInformed sel r := by
  rw [foldl_informedRoutes]
  simp [DirectlyInformed, List.mem_filterMap]

theorem foldl_irft_keys_nodup (opts : ParseRealtimeOptions) (sel : List EntitySelector) :
    ∀ st0 : AlertParseState, (alKeys st0.informedRoutesFromTripIDs).Nodup →
    (alKeys (sel.foldl (alertStep opts) st0).informedRoutesFromTripIDs).Nodup := by
  induction sel with
  | nil => intro st0 h; exact h
  | cons e rest ih =>
    intro st0 h
    rw [List.foldl_cons]
    refine ih (alertStep opts st0 e) ?_
    rw [alertStep_irft]
    rcases htd : parseOptionalTripDescriptor e.Trip opts with _ | tid <;>
      simp only [htd]
    · exact h
    · split_ifs
      · exact alKeys_update_nodup _ _ _ h
      · exact h

theorem synth_filter_key
    (m : List (GoStr × (Bool × Bool))) (routes : List GoStr) (r : GoStr)
    (hnd : (alKeys m).Nodup) :
    ((m.filter fun kv => !decide (kv.1 ∈ routes)).map
        fun kv => dirPairToSynth kv.1 kv.2).filter
        (fun x => decide (x.RouteID = some r)) =
      match alLookup m r with
      | some p => if r ∈ routes then [] else [dirPairToSynth r p]
      | none => [] := by
  induction m with
  | nil => rfl
  | cons kv rest ih =>
    obtain ⟨a, b⟩ := kv
    have hfa : (dirPairToSynth a b).RouteID = some a := dirPairToSynth_RouteID a b
    have hnd2 : (alKeys rest).Nodup := (List.nodup_cons.mp hnd).2
    have hihm := ih hnd2
    by_cases har : a = r
    · subst har
      have hrest : alLookup rest a = none := by
        rw [alLookup_eq_none_iff]
        exact (List.nodup_cons.mp hnd).1
      by_cases hmem : a ∈ routes
      · simp [alLookup, hmem, List.filter_cons, hihm, hrest]
      · simp [alLookup, hmem, List.filter_cons, hihm, hrest, hfa]
    · have hlk : alLookup ((a, b) :: rest) r = alLookup rest r := by
        simp [alLookup, har]
      rw [hlk, ← hihm]
      by_cases hmem : a ∈ routes
      · simp [List.filter_cons, hmem]
      · have hne : ¬ (dirPairToSynth a b).RouteID = some r := by
          rw [hfa]
          intro he
          exact har (Option.some_inj.mp he)
        simp [List.filter_cons, hmem, hne]

theorem dirPairToSynth_spec (r : GoStr) (ds : List DirectionID) :
    dirPairToSynth r (decide (DirectionID_False ∈ ds ∨ DirectionID_Unspecified ∈ ds),
                      decide (DirectionID_True ∈ ds ∨ DirectionID_Unspecified ∈ ds)) =
      mkSynthSpec r (specSynthDirection ds) := by
  unfold dirPairToSynth mkSynthSpec specSynthDirection
  by_cases hU : DirectionID_Unspecified ∈ ds <;>
  by_cases hF : DirectionID_False ∈ ds <;>
  by_cases hT : DirectionID_True ∈ ds <;>
  simp [hU, hF, hT]

theorem alertSynthEntities_byRoute (al : FeedAlert) (opts : ParseRealtimeOptions)
    (r : GoStr) :
    (alertSynthEntities al opts).filter (fun x => decide (x.RouteID = some r)) =
      if routeDirOccs opts al.InformedEntity r = [] ∨ DirectlyInformed al.InformedEntity r
      then []
      else [mkSynthSpec r (specSynthDirection (routeDirOccs opts al.InformedEntity r))] := by
  unfold alertSynthEntities synthesizedRouteEntities
  have hnd : (alKeys (al.InformedEntity.foldl (alertStep opts)
      ⟨[], [], [], []⟩).informedRoutesFromTripIDs).Nodup :=
    foldl_irft_keys_nodup opts al.InformedEntity ⟨[], [], [], []⟩ (by simp [alKeys])
  rw [synth_filter_key _ _ r hnd]
  have hlk := foldl_irft_lookup opts al.InformedEntity r ⟨[], [], [], []⟩
  simp only [alLookup] at hlk
  rw [hlk, dirFold_char]
  have hmem := foldl_informedRoutes_mem opts al.InformedEntity r
  by_cases hocc : routeDirOccs opts al.InformedEntity r = [] <;>
    by_cases hdir : DirectlyInformed al.InformedEntity r <;>
      simp [hocc, hdir, hmem]
  rw [← Bool.decide_or, ← Bool.decide_or, dirPairToSynth_spec]

theorem parseAlert_single_nonidentifying (i r : GoStr) (opts : ParseRealtimeOptions)
    (h : r ≠ []) :
    parseAlert i ⟨[], [⟨none, none, none, none,
        some ⟨none, some r, none, none, none, none⟩, none⟩],
        none, none, none, none, none⟩ opts =
      ({ ID := i, ActivePeriods := [], Cause := Alert_UNKNOWN_CAUSE,
         Effect := Alert_UNKNOWN_EFFECT,
         InformedEntities := [mkSynthSpec r DirectionID_Unspecified],
         Header := [], Description := [], URL := [] }, []) := by
  unfold parseAlert alertStep
  simp [parseOptionalTripDescriptor, parseTripDescriptor, parseStartTime, parseStartDate,
    tripIDUniquelyIdentifiesTrip, alertInformedEntityInformsAtLeastOneEntity,
    parseDirectionID_GTFSRealtime, parseRouteType_GTFSRealtime, h,
    synthesizedRouteEntities, dirPairToSynth, mkSynthSpec, buildAlertText,
    alUpdate, DirectionID_Unspecified, RouteType_Unknown]

/-- C4 counterexample: in an alert with informed entities
{Trip:{RouteId:"R", DirectionId:0}}, {Trip:{RouteId:"R", DirectionId:1}} and
{RouteId:"S", Trip:{RouteId:"S"}}, both directions of route R are explicitly
specified by non-identifying trip descriptors, yet the synthesized entity for
R carries an unspecified DirectionID rather than a single specified
direction; and although route S is directly informed only by the very same
entity that carries its non-identifying trip descriptor (no *other* informed
entity names S), no additional entity is synthesized for S. -/
theorem C4_counterexample :
    (parseAlert [65] ⟨[],
        [⟨none, none, none, none, some ⟨none, some [82], some 0, none, none, none⟩, none⟩,
         ⟨none, none, none, none, some ⟨none, some [82], some 1, none, none, none⟩, none⟩,
         ⟨none, some [83], none, none, some ⟨none, some [83], none, none, none, none⟩, none⟩],
        none, none, none, none, none⟩ ⟨fun _ _ _ => 0⟩).1.InformedEntities =
      [⟨none, some [83], RouteType_Unknown, DirectionID_Unspecified, none, none⟩,
       ⟨none, some [82], RouteType_Unknown, DirectionID_Unspecified, none, none⟩] ∧
    routeDirOccs ⟨fun _ _ _ => 0⟩
        [⟨none, none, none, none, some ⟨none, some [82], some 0, none, none, none⟩, none⟩,
         ⟨none, none, none, none, some ⟨none, some [82], some 1, none, none, none⟩, none⟩,
         ⟨none, some [83], none, none, some ⟨none, some [83], none, none, none, none⟩, none⟩]
        [82] = [DirectionID_False, DirectionID_True] ∧
    alertSynthEntities ⟨[],
        [⟨none, none, none, none, some ⟨none, some [82], some 0, none, none, none⟩, none⟩,
         ⟨none, none, none, none, some ⟨none, some [82], some 1, none, none, none⟩, none⟩,
         ⟨none, some [83], none, none, some ⟨none, some [83], none, none, none, none⟩, none⟩],
        none, none, none, none, none⟩ ⟨fun _ _ _ => 0⟩ =
      [⟨none, some [82], RouteType_Unknown, DirectionID_Unspecified, none, none⟩] := by
  refine ⟨?_, ?_, ?_⟩ <;> decide

/-- C4 (amended): the informed entities emitted by `parseAlert` are the kept
decoded entities followed by the synthesized route entities.  For every
route `r`, exactly one entity carrying `r` is synthesized precisely when
some informed entity's trip descriptor fails to uniquely identify a trip yet
names the non-empty route `r`, and no informed entity of the alert
(including that one itself) informs `r` directly via its RouteID field; its
RouteType is Unknown and its DirectionID is unspecified when some qualifying
occurrence left the direction unspecified *or both directions were
specified across occurrences*, else the single specified direction.  In
particular an alert whose only informed entity is
{Trip:{RouteId:r, DirectionId:unset}} (with r non-empty) produces exactly
one informed entity {RouteID:r, RouteType:Unknown, DirectionID:unspecified}
with no TripID, and zero implied trips. -/
theorem C4_route_synthesis (i : GoStr) (al : FeedAlert) (opts : ParseRealtimeOptions)
    (r : GoStr) (h : r ≠ []) :
    ((parseAlert i al opts).1.InformedEntities =
        alertKeptEntities al opts ++ alertSynthEntities al opts) ∧
    ((alertSynthEntities al opts).filter (fun x => decide (x.RouteID = some r)) =
      if routeDirOccs opts al.InformedEntity r ≠ [] ∧ ¬ DirectlyInformed al.InformedEntity r
      then [mkSynthSpec r (specSynthDirection (routeDirOccs opts al.InformedEntity r))]
      else []) ∧
    ((parseAlert i ⟨[], [⟨none, none, none, none,
        some ⟨none, some r, none, none, none, none⟩, none⟩],
        none, none, none, none, none⟩ opts).1.InformedEntities =
      [{ AgencyID := none, RouteID := some r, RouteType := RouteType_Unknown,
         DirectionID := DirectionID_Unspecified, TripID := none, StopID := none }]) ∧
    (parseAlert i ⟨[], [⟨none, none, none, none,
        some ⟨none, some r, none, none, none, none⟩, none⟩],
        none, none, none, none, none⟩ opts).2 = [] := by
  refine ⟨parseAlert_informedEntities_split i al opts, ?_, ?_, ?_⟩
  · rw [alertSynthEntities_byRoute]
    by_cases hocc : routeDirOccs opts al.InformedEntity r = [] <;>
      by_cases hdir : DirectlyInformed al.InformedEntity r <;>
      simp [hocc, hdir]
  · rw [parseAlert_single_nonidentifying i r opts h]
    rfl
  · rw [parseAlert_single_nonidentifying i r opts h]

/-- C4 witness: the amended theorem evaluated for the single-entity alert
informing route "R" through a non-identifying trip descriptor. -/
theorem C4_route_synthesis_witness :
    (parseAlert [65] ⟨[], [⟨none, none, none, none,
        some ⟨none, some [82], none, none, none, none⟩, none⟩],
        none, none, none, none, none⟩ ⟨fun _ _ _ => 0⟩).1.InformedEntities =
      [{ AgencyID := none, RouteID := some [82], RouteType := RouteType_Unknown,
         DirectionID := DirectionID_Unspecified, TripID := none, StopID := none }] :=
  (C4_route_synthesis [65] ⟨[], [⟨none, none, none, none,
      some ⟨none, some [82], none, none, none, none⟩, none⟩],
      none, none, none, none, none⟩ ⟨fun _ _ _ => 0⟩ [82] (by decide)).2.2.1

/-! Prefix-injectivity of the hash byte stream (the encoders are
self-delimiting: every chunk can be cancelled from the front of a stream
equality, recovering the encoded value and the rest of the stream). -/

theorem natLE_length (k n : Nat) : (natLE k n).length = k := by
  induction k generalizing n with
  | zero => rfl
  | succ k ih => simp [natLE, ih]

theorem natLE_inj (k : Nat) : ∀ a b : Nat, a < 256 ^ k → b < 256 ^ k →
    natLE k a = natLE k b → a = b := by
  induction k with
  | zero =>
    intro a b ha hb _
    simp only [pow_zero, Nat.lt_one_iff] at ha hb
    rw [ha, hb]
  | succ k ih =>
    intro a b ha hb h
    simp only [natLE, List.cons.injEq] at h
    have hda : a / 256 < 256 ^ k := by
      rw [Nat.div_lt_iff_lt_mul (by norm_num : 0 < 256)]
      calc a < 256 ^ (k + 1) := ha
        _ = 256 ^ k * 256 := by ring
    have hdb : b / 256 < 256 ^ k := by
      rw [Nat.div_lt_iff_lt_mul (by norm_num : 0 < 256)]
      calc b < 256 ^ (k + 1) := hb
        _ = 256 ^ k * 256 := by ring
    have hdiv := ih (a / 256) (b / 256) hda hdb h.2
    calc a = 256 * (a / 256) + a % 256 := (Nat.div_add_mod a 256).symm
      _ = 256 * (b / 256) + b % 256 := by rw [hdiv, h.1]
      _ = b := Nat.div_add_mod b 256

theorem natLE_cancel (k a b : Nat) (r1 r2 : List Nat)
    (ha : a < 256 ^ k) (hb : b < 256 ^ k)
    (h : natLE k a ++ r1 = natLE k b ++ r2) : a = b ∧ r1 = r2 := by
  have hl : (natLE k a).length = (natLE k b).length := by
    rw [natLE_length, natLE_length]
  obtain ⟨h1, h2⟩ := List.append_inj h hl
  exact ⟨natLE_inj k a b ha hb h1, h2⟩

theorem intLE_cancel (k : Nat) (i j : Int) (r1 r2 : List Nat)
    (hi1 : -(((256 : Nat) ^ k : Nat) : Int) < i - j) (hi2 : i - j < (((256 : Nat) ^ k : Nat) : Int))
    (h : intLE k i ++ r1 = intLE k j ++ r2) : i = j ∧ r1 = r2 := by
  have hM : (0 : Int) < (((256 : Nat) ^ k : Nat) : Int) := by
    exact_mod_cast Nat.pos_pow_of_pos k (by norm_num)
  have hmi : 0 ≤ i % (((256 : Nat) ^ k : Nat) : Int) := Int.emod_nonneg i (by omega)
  have hmj : 0 ≤ j % (((256 : Nat) ^ k : Nat) : Int) := Int.emod_nonneg j (by omega)
  have hbi : i % (((256 : Nat) ^ k : Nat) : Int) < (((256 : Nat) ^ k : Nat) : Int) :=
    Int.emod_lt_of_pos i hM
  have hbj : j % (((256 : Nat) ^ k : Nat) : Int) < (((256 : Nat) ^ k : Nat) : Int) :=
    Int.emod_lt_of_pos j hM
  have hbi2 : (i % (((256 : Nat) ^ k : Nat) : Int)).toNat < 256 ^ k := by omega
  have hbj2 : (j % (((256 : Nat) ^ k : Nat) : Int)).toNat < 256 ^ k := by omega
  unfold intLE at h
  obtain ⟨h1, h2⟩ := natLE_cancel k _ _ r1 r2 hbi2 hbj2 h
  refine ⟨?_, h2⟩
  have hmod : i % (((256 : Nat) ^ k : Nat) : Int) = j % (((256 : Nat) ^ k : Nat) : Int) := by
    omega
  have hsub : (i - j) % (((256 : Nat) ^ k : Nat) : Int) = 0 := by
    rw [Int.sub_emod, hmod, sub_self, Int.zero_emod]
  have hdvd : (((256 : Nat) ^ k : Nat) : Int) ∣ i - j := Int.dvd_of_emod_eq_zero hsub
  have : i - j = 0 := by
    rcases hdvd with ⟨c, hc⟩
    rcases lt_trichotomy c 0 with hcn | hcz | hcp
    · exfalso; nlinarith
    · rw [hc, hcz, mul_zero]
    · exfalso; nlinarith
  omega

theorem boolByte_cancel (b1 b2 : Bool) (r1 r2 : List Nat)
    (h : boolByte b1 ++ r1 = boolByte b2 ++ r2) : b1 = b2 ∧ r1 = r2 := by
  rcases b1 <;> rcases b2 <;> simp [boolByte] at h ⊢ <;> exact h

theorem encString_cancel (s1 s2 : GoStr) (r1 r2 : List Nat)
    (h1 : StrRange s1) (h2 : StrRange s2)
    (h : encString s1 ++ r1 = encString s2 ++ r2) : s1 = s2 ∧ r1 = r2 := by
  unfold encString at h
  rw [List.append_assoc, List.append_assoc] at h
  have hb1 : s1.length < 256 ^ 8 := by
    have := h1
    unfold StrRange at this
    omega
  have hb2 : s2.length < 256 ^ 8 := by
    have := h2
    unfold StrRange at this
    omega
  obtain ⟨hlen, htail⟩ := natLE_cancel 8 _ _ _ _ hb1 hb2 h
  exact List.append_inj htail hlen

theorem encOpt_cancel {α γ : Type} (f : α → List Nat) (g : α → γ) (P : α → Prop)
    (hf : ∀ a1 a2 r1 r2, P a1 → P a2 → f a1 ++ r1 = f a2 ++ r2 → g a1 = g a2 ∧ r1 = r2)
    (o1 o2 : Option α) (r1 r2 : List Nat) (h1 : ∀ a ∈ o1, P a) (h2 : ∀ a ∈ o2, P a)
    (h : encOpt f o1 ++ r1 = encOpt f o2 ++ r2) : o1.map g = o2.map g ∧ r1 = r2 := by
  unfold encOpt at h
  rw [List.append_assoc, List.append_assoc] at h
  obtain ⟨hb, ht⟩ := boolByte_cancel _ _ _ _ h
  rcases o1 with _ | a1 <;> rcases o2 with _ | a2
  · simpa using ht
  · simp at hb
  · simp at hb
  · simp only [List.nil_append] at ht
    obtain ⟨hg, hr⟩ := hf a1 a2 r1 r2 (h1 a1 rfl) (h2 a2 rfl) ht
    exact ⟨by simp [hg], hr⟩

theorem encOpt_cancel_eq {α : Type} (f : α → List Nat) (P : α → Prop)
    (hf : ∀ a1 a2 r1 r2, P a1 → P a2 → f a1 ++ r1 = f a2 ++ r2 → a1 = a2 ∧ r1 = r2)
    (o1 o2 : Option α) (r1 r2 : List Nat) (h1 : ∀ a ∈ o1, P a) (h2 : ∀ a ∈ o2, P a)
    (h : encOpt f o1 ++ r1 = encOpt f o2 ++ r2) : o1 = o2 ∧ r1 = r2 := by
  obtain ⟨hg, hr⟩ := encOpt_cancel f id P hf o1 o2 r1 r2 h1 h2 h
  refine ⟨?_, hr⟩
  rcases o1 with _ | a1 <;> rcases o2 with _ | a2 <;> simpa using hg

theorem intLE8_cancel (i j : Int) (r1 r2 : List Nat) (hi : I64Range i) (hj : I64Range j)
    (h : intLE 8 i ++ r1 = intLE 8 j ++ r2) : i = j ∧ r1 = r2 := by
  unfold I64Range at hi hj
  have hM : (((256 : Nat) ^ 8 : Nat) : Int) = 2 ^ 64 := by norm_num
  refine intLE_cancel 8 i j r1 r2 ?_ ?_ h <;> rw [hM] <;> omega

theorem intLE4_cancel (i j : Int) (r1 r2 : List Nat) (hi : I32Range i) (hj : I32Range j)
    (h : intLE 4 i ++ r1 = intLE 4 j ++ r2) : i = j ∧ r1 = r2 := by
  unfold I32Range at hi hj
  have hM : (((256 : Nat) ^ 4 : Nat) : Int) = 2 ^ 32 := by norm_num
  refine intLE_cancel 4 i j r1 r2 ?_ ?_ h <;> rw [hM] <;> omega

theorem natLE4_cancel (a b : Nat) (r1 r2 : List Nat) (ha : U32Range a) (hb : U32Range b)
    (h : natLE 4 a ++ r1 = natLE 4 b ++ r2) : a = b ∧ r1 = r2 := by
  unfold U32Range at ha hb
  refine natLE_cancel 4 a b r1 r2 ?_ ?_ h <;> norm_num <;> omega

theorem natLE8_cancel (a b : Nat) (r1 r2 : List Nat) (ha : U64Range a) (hb : U64Range b)
    (h : natLE 8 a ++ r1 = natLE 8 b ++ r2) : a = b ∧ r1 = r2 := by
  unfold U64Range at ha hb
  refine natLE_cancel 8 a b r1 r2 ?_ ?_ h <;> norm_num <;> omega

theorem encEventBody_cancel (e1 e2 : StopTimeEvent) (r1 r2 : List Nat)
    (h1 : EventHashable e1) (h2 : EventHashable e2)
    (h : encEventBody e1 ++ r1 = encEventBody e2 ++ r2) : e1 = e2 ∧ r1 = r2 := by
  obtain ⟨h1t, h1d, h1u⟩ := h1
  obtain ⟨h2t, h2d, h2u⟩ := h2
  unfold encEventBody at h
  simp only [List.append_assoc] at h
  obtain ⟨et, h⟩ := encOpt_cancel_eq (intLE 8) I64Range intLE8_cancel _ _ _ _ h1t h2t h
  obtain ⟨ed, h⟩ := encOpt_cancel_eq (intLE 8) I64Range intLE8_cancel _ _ _ _ h1d h2d h
  obtain ⟨eu, h⟩ := encOpt_cancel_eq (intLE 4) I32Range intLE4_cancel _ _ _ _ h1u h2u h
  refine ⟨?_, h⟩
  cases e1
  cases e2
  simp_all

theorem encEvent_cancel (o1 o2 : Option StopTimeEvent) (r1 r2 : List Nat)
    (h1 : ∀ e ∈ o1, EventHashable e) (h2 : ∀ e ∈ o2, EventHashable e)
    (h : encEvent o1 ++ r1 = encEvent o2 ++ r2) : o1 = o2 ∧ r1 = r2 :=
  encOpt_cancel_eq encEventBody EventHashable encEventBody_cancel o1 o2 r1 r2 h1 h2 h

theorem encSTU_cancel (s1 s2 : StopTimeUpdate) (r1 r2 : List Nat)
    (h1 : STUHashable s1) (h2 : STUHashable s2)
    (h : encSTU s1 ++ r1 = encSTU s2 ++ r2) : s1 = s2 ∧ r1 = r2 := by
  obtain ⟨h1q, h1s, h1n, h1r, h1a, h1d⟩ := h1
  obtain ⟨h2q, h2s, h2n, h2r, h2a, h2d⟩ := h2
  unfold encSTU at h
  simp only [List.append_assoc] at h
  obtain ⟨eq1, h⟩ := encOpt_cancel_eq (natLE 4) U32Range natLE4_cancel _ _ _ _ h1q h2q h
  obtain ⟨eq2, h⟩ := encOpt_cancel_eq encString StrRange encString_cancel _ _ _ _ h1s h2s h
  obtain ⟨eq3, h⟩ := encOpt_cancel_eq encString StrRange encString_cancel _ _ _ _ h1n h2n h
  obtain ⟨eq4, h⟩ := intLE4_cancel _ _ _ _ h1r h2r h
  obtain ⟨eq5, h⟩ := encEvent_cancel _ _ _ _ h1a h2a h
  obtain ⟨eq6, h⟩ := encEvent_cancel _ _ _ _ h1d h2d h
  refine ⟨?_, h⟩
  cases s1
  cases s2
  simp_all

theorem flatMap_encSTU_cancel : ∀ (l1 l2 : List StopTimeUpdate) (r1 r2 : List Nat),
    l1.length = l2.length → (∀ s ∈ l1, STUHashable s) → (∀ s ∈ l2, STUHashable s) →
    l1.flatMap encSTU ++ r1 = l2.flatMap encSTU ++ r2 → l1 = l2 ∧ r1 = r2 := by
  intro l1
  induction l1 with
  | nil =>
    intro l2 r1 r2 hlen _ _ h
    rcases l2 with _ | ⟨x, l2⟩
    · simpa using h
    · simp at hlen
  | cons x l1 ih =>
    intro l2 r1 r2 hlen hm1 hm2 h
    rcases l2 with _ | ⟨y, l2⟩
    · simp at hlen
    · simp only [List.flatMap_cons, List.append_assoc] at h
      obtain ⟨hxy, h⟩ := encSTU_cancel x y _ _ (hm1 x (by simp)) (hm2 y (by simp)) h
      obtain ⟨hl, hr⟩ := ih l2 r1 r2 (by simpa using hlen)
        (fun s hs => hm1 s (by simp [hs])) (fun s hs => hm2 s (by simp [hs])) h
      exact ⟨by rw [hxy, hl], hr⟩

theorem dirToNat_inj (d1 d2 : DirectionID) (h : d1.toNat = d2.toNat) : d1 = d2 := by
  cases d1 <;> cases d2 <;> simp_all [DirectionID.toNat]
theorem tripID_ext (a b : TripID) (h1 : a.ID = b.ID) (h2 : a.RouteID = b.RouteID)
    (h3 : a.DirectionID = b.DirectionID) (h4 : a.HasStartTime = b.HasStartTime)
    (h5 : a.StartTime = b.StartTime) (h6 : a.HasStartDate = b.HasStartDate)
    (h7 : a.StartDate = b.StartDate)
    (h8 : a.ScheduleRelationship = b.ScheduleRelationship) : a = b := by
  cases a
  cases b
  simp_all

theorem encodeTrip_cancel (t1 t2 : HTrip) (r1 r2 : List Nat)
    (h1 : TripHashable t1) (h2 : TripHashable t2)
    (h : encodeTrip t1 ++ r1 = encodeTrip t2 ++ r2) :
    tripHashFields t1 = tripHashFields t2 ∧ r1 = r2 := by
  obtain ⟨⟨h1i, h1r, h1sd, h1st, h1sr⟩, h1len, h1stu⟩ := h1
  obtain ⟨⟨h2i, h2r, h2sd, h2st, h2sr⟩, h2len, h2stu⟩ := h2
  unfold encodeTrip at h
  simp only [List.append_assoc, List.cons_append, List.nil_append] at h
  obtain ⟨e1, h⟩ := encString_cancel _ _ _ _ h1i h2i h
  obtain ⟨e2, h⟩ := encString_cancel _ _ _ _ h1r h2r h
  obtain ⟨e3n, h⟩ := List.cons.inj h
  have e3 := dirToNat_inj _ _ e3n
  obtain ⟨e4, h⟩ := boolByte_cancel _ _ _ _ h
  obtain ⟨e5, h⟩ := intLE8_cancel _ _ _ _ h1sd h2sd h
  obtain ⟨e6, h⟩ := boolByte_cancel _ _ _ _ h
  obtain ⟨e7, h⟩ := intLE8_cancel _ _ _ _ h1st h2st h
  have hL1 : I64Range (t1.StopTimeUpdates.length : Int) := by
    unfold I64Range
    omega
  have hL2 : I64Range (t2.StopTimeUpdates.length : Int) := by
    unfold I64Range
    omega
  obtain ⟨e8, h⟩ := intLE8_cancel _ _ _ _ hL1 hL2 h
  have e8n : t1.StopTimeUpdates.length = t2.StopTimeUpdates.length := by exact_mod_cast e8
  obtain ⟨e9, h⟩ := intLE4_cancel _ _ _ _ h1sr h2sr h
  obtain ⟨e10, h⟩ := flatMap_encSTU_cancel _ _ _ _ e8n h1stu h2stu h
  have hID : t1.ID = t2.ID := tripID_ext _ _ e1 e2 e3 e6 e7 e4 e5 e9
  refine ⟨?_, h⟩
  unfold tripHashFields
  rw [hID, e10]

theorem encVehicleID_cancel (a b : VehicleID) (r1 r2 : List Nat)
    (h1 : VehicleIDHashable a) (h2 : VehicleIDHashable b)
    (h : encVehicleID a ++ r1 = encVehicleID b ++ r2) : a = b ∧ r1 = r2 := by
  obtain ⟨h1i, h1l, h1p⟩ := h1
  obtain ⟨h2i, h2l, h2p⟩ := h2
  unfold encVehicleID at h
  simp only [List.append_assoc] at h
  obtain ⟨e1, h⟩ := encString_cancel _ _ _ _ h1i h2i h
  obtain ⟨e2, h⟩ := encString_cancel _ _ _ _ h1l h2l h
  obtain ⟨e3, h⟩ := encString_cancel _ _ _ _ h1p h2p h
  refine ⟨?_, h⟩
  cases a
  cases b
  simp_all

theorem encPosition_cancel (a b : Position) (r1 r2 : List Nat)
    (h1 : PositionHashable a) (h2 : PositionHashable b)
    (h : encPosition a ++ r1 = encPosition b ++ r2) : a = b ∧ r1 = r2 := by
  obtain ⟨h1a, h1b, h1c, h1d, h1e⟩ := h1
  obtain ⟨h2a, h2b, h2c, h2d, h2e⟩ := h2
  unfold encPosition at h
  simp only [List.append_assoc] at h
  obtain ⟨e1, h⟩ := encOpt_cancel_eq (natLE 4) U32Range natLE4_cancel _ _ _ _ h1a h2a h
  obtain ⟨e2, h⟩ := encOpt_cancel_eq (natLE 4) U32Range natLE4_cancel _ _ _ _ h1b h2b h
  obtain ⟨e3, h⟩ := encOpt_cancel_eq (natLE 4) U32Range natLE4_cancel _ _ _ _ h1c h2c h
  obtain ⟨e4, h⟩ := encOpt_cancel_eq (natLE 8) U64Range natLE8_cancel _ _ _ _ h1d h2d h
  obtain ⟨e5, h⟩ := encOpt_cancel_eq (natLE 4) U32Range natLE4_cancel _ _ _ _ h1e h2e h
  refine ⟨?_, h⟩
  cases a
  cases b
  simp_all

theorem encodeVehicle_cancel (v1 v2 : HVehicle) (r1 r2 : List Nat)
    (h1 : VehicleHashable v1) (h2 : VehicleHashable v2)
    (h : encodeVehicle v1 ++ r1 = encodeVehicle v2 ++ r2) :
    vehicleHashFields v1 = vehicleHashFields v2 ∧ r1 = r2 := by
  obtain ⟨h1a, h1b, h1c, h1d, h1e, h1f, h1g, h1h, h1i, h1j⟩ := h1
  obtain ⟨h2a, h2b, h2c, h2d, h2e, h2f, h2g, h2h, h2i, h2j⟩ := h2
  unfold encodeVehicle at h
  simp only [List.append_assoc] at h
  obtain ⟨e1, h⟩ := encOpt_cancel_eq encVehicleID VehicleIDHashable encVehicleID_cancel
    _ _ _ _ h1a h2a h
  obtain ⟨e2, h⟩ := encOpt_cancel encodeTrip tripHashFields TripHashable encodeTrip_cancel
    _ _ _ _ h1b h2b h
  obtain ⟨e3, h⟩ := encOpt_cancel_eq encPosition PositionHashable encPosition_cancel
    _ _ _ _ h1c h2c h
  obtain ⟨e4, h⟩ := encOpt_cancel_eq (natLE 4) U32Range natLE4_cancel _ _ _ _ h1d h2d h
  obtain ⟨e5, h⟩ := encOpt_cancel_eq encString StrRange encString_cancel _ _ _ _ h1e h2e h
  obtain ⟨e6, h⟩ := encOpt_cancel_eq (intLE 4) I32Range intLE4_cancel _ _ _ _ h1f h2f h
  obtain ⟨e7, h⟩ := encOpt_cancel_eq (intLE 8) I64Range intLE8_cancel _ _ _ _ h1g h2g h
  obtain ⟨e8, h⟩ := intLE4_cancel _ _ _ _ h1h h2h h
  obtain ⟨e9, h⟩ := encOpt_cancel_eq (intLE 4) I32Range intLE4_cancel _ _ _ _ h1i h2i h
  obtain ⟨e10, h⟩ := encOpt_cancel_eq (natLE 4) U32Range natLE4_cancel _ _ _ _ h1j h2j h
  refine ⟨?_, h⟩
  unfold vehicleHashFields
  rw [e1, e2, e3, e4, e5, e6, e7, e8, e9, e10]

/-- C6: over Trips and Vehicles whose numeric fields lie in the ranges of the
Go types they model, the byte stream fed to the hash function is injective
in the hashed fields: two trips (resp. vehicles) differing in some hashed
field — including set-versus-absent for every optional field, timestamps
taken at whole-second granularity — produce different byte streams, because
every string is length-prefixed and every optional value presence-prefixed,
making each chunk self-delimiting. -/
theorem C6_hash_stream_injective :
    (∀ t1 t2 : HTrip, TripHashable t1 → TripHashable t2 →
      tripHashFields t1 ≠ tripHashFields t2 → encodeTrip t1 ≠ encodeTrip t2) ∧
    (∀ v1 v2 : HVehicle, VehicleHashable v1 → VehicleHashable v2 →
      vehicleHashFields v1 ≠ vehicleHashFields v2 → encodeVehicle v1 ≠ encodeVehicle v2) := by
  constructor
  · intro t1 t2 h1 h2 hne he
    exact hne (encodeTrip_cancel t1 t2 [] [] h1 h2 (by simpa using he)).1
  · intro v1 v2 h1 h2 hne he
    exact hne (encodeVehicle_cancel v1 v2 [] [] h1 h2 (by simpa using he)).1

/-- C6 witness: two trips differing only in the trip ID string, and two
vehicles differing only in presence of the vehicle ID, hash to different
byte streams. -/
theorem C6_hash_stream_injective_witness :
    encodeTrip (HTrip.mk zeroTripID [] none false) ≠
      encodeTrip (HTrip.mk { zeroTripID with ID := [1] } [] none false) ∧
    encodeVehicle (HVehicle.mk none none none none none none none 0 none none false) ≠
      encodeVehicle (HVehicle.mk (some ⟨[2], [], []⟩) none none none none none none 0
        none none false) :=
  ⟨C6_hash_stream_injective.1 _ _ (by decide) (by decide) (by decide),
   C6_hash_stream_injective.2 _ _ (by decide) (by decide)
     (by
       intro hcon
       exact absurd (congrArg (fun x => x.1) hcon) (by decide))⟩

theorem encodeTrip_congr (t1 t2 : HTrip) (h : tripHashFields t1 = tripHashFields t2) :
    encodeTrip t1 = encodeTrip t2 := by
  have hID : t1.ID = t2.ID := congrArg Prod.fst h
  have hSTU : t1.StopTimeUpdates = t2.StopTimeUpdates := congrArg Prod.snd h
  unfold encodeTrip
  rw [hID, hSTU]

theorem encodeVehicle_congr (v1 v2 : HVehicle)
    (h : vehicleHashFields v1 = vehicleHashFields v2) :
    encodeVehicle v1 = encodeVehicle v2 := by
  have e1 : v1.ID = v2.ID := congrArg (fun x => x.1) h
  have e2 : v1.Trip.map tripHashFields = v2.Trip.map tripHashFields :=
    congrArg (fun x => x.2.1) h
  have e3 : v1.Position = v2.Position := congrArg (fun x => x.2.2.1) h
  have e4 : v1.CurrentStopSequence = v2.CurrentStopSequence :=
    congrArg (fun x => x.2.2.2.1) h
  have e5 : v1.StopID = v2.StopID := congrArg (fun x => x.2.2.2.2.1) h
  have e6 : v1.CurrentStatus = v2.CurrentStatus := congrArg (fun x => x.2.2.2.2.2.1) h
  have e7 : v1.Timestamp = v2.Timestamp := congrArg (fun x => x.2.2.2.2.2.2.1) h
  have e8 : v1.CongestionLevel = v2.CongestionLevel :=
    congrArg (fun x => x.2.2.2.2.2.2.2.1) h
  have e9 : v1.OccupancyStatus = v2.OccupancyStatus :=
    congrArg (fun x => x.2.2.2.2.2.2.2.2.1) h
  have e10 : v1.OccupancyPercentage = v2.OccupancyPercentage :=
    congrArg (fun x => x.2.2.2.2.2.2.2.2.2) h
  have etrip : encOpt encodeTrip v1.Trip = encOpt encodeTrip v2.Trip := by
    rcases ho1 : v1.Trip with _ | u1 <;> rcases ho2 : v2.Trip with _ | u2
    · rfl
    · rw [ho1, ho2] at e2
      simp at e2
    · rw [ho1, ho2] at e2
      simp at e2
    · rw [ho1, ho2] at e2
      simp only [Option.map_some'] at e2
      have hc := encodeTrip_congr u1 u2 (Option.some_inj.mp e2)
      simp [encOpt, hc]
  unfold encodeVehicle
  rw [e1, etrip, e3, e4, e5, e6, e7, e8, e9, e10]

theorem encodeVehicle_includes (v : HVehicle) (t : HTrip) (h : v.Trip = some t) :
    ∃ pre suf, encodeVehicle v = pre ++ encodeTrip t ++ suf := by
  refine ⟨encOpt encVehicleID v.ID ++ boolByte false,
    encOpt encPosition v.Position ++
      encOpt (natLE 4) v.CurrentStopSequence ++ encOpt encString v.StopID ++
      encOpt (intLE 4) v.CurrentStatus ++ encOpt (intLE 8) v.Timestamp ++
      intLE 4 v.CongestionLevel ++ encOpt (intLE 4) v.OccupancyStatus ++
      encOpt (natLE 4) v.OccupancyPercentage, ?_⟩
  unfold encodeVehicle
  rw [h]
  simp [encOpt, List.append_assoc]

/-- C7: hashing is one-directional.  The trip byte stream depends only on the
trip's hashed fields (not on its `Vehicle` pointer or `IsEntityInMessage`);
the vehicle byte stream depends only on the vehicle's hashed fields, which
include the linked trip one level deep through that trip's own hashed
fields only (never its `Vehicle` back-pointer or `IsEntityInMessage`); and
the bytes of a linked trip appear verbatim, by value, inside the vehicle's
byte stream — so hashing terminates on mutually referencing pairs. -/
theorem C7_hash_one_directional :
    (∀ t1 t2 : HTrip, tripHashFields t1 = tripHashFields t2 →
      encodeTrip t1 = encodeTrip t2) ∧
    (∀ v1 v2 : HVehicle, vehicleHashFields v1 = vehicleHashFields v2 →
      encodeVehicle v1 = encodeVehicle v2) ∧
    (∀ (v : HVehicle) (t : HTrip), v.Trip = some t →
      ∃ pre suf, encodeVehicle v = pre ++ encodeTrip t ++ suf) :=
  ⟨encodeTrip_congr, encodeVehicle_congr, encodeVehicle_includes⟩

/-- C7 witness: a trip pointing at a vehicle hashes like the same trip with no
vehicle pointer and a different `IsEntityInMessage`; a vehicle with flipped
`IsEntityInMessage` hashes identically; and the bytes of a linked trip
occur inside the linking vehicle's stream. -/
theorem C7_hash_one_directional_witness :
    encodeTrip (HTrip.mk zeroTripID []
        (some (HVehicle.mk none none none none none none none 0 none none true)) true) =
      encodeTrip (HTrip.mk zeroTripID [] none false) ∧
    encodeVehicle (HVehicle.mk none none none none none none none 0 none none true) =
      encodeVehicle (HVehicle.mk none none none none none none none 0 none none false) ∧
    ∃ pre suf,
      encodeVehicle (HVehicle.mk none (some (HTrip.mk zeroTripID [] none false))
          none none none none none 0 none none false) =
        pre ++ encodeTrip (HTrip.mk zeroTripID [] none false) ++ suf :=
  ⟨C7_hash_one_directional.1 _ _ rfl,
   C7_hash_one_directional.2.1 _ _ rfl,
   C7_hash_one_directional.2.2 _ _ rfl⟩
